import Mathlib

/-!
Shallow embedding of `utilities/gen_mut_model.py` (NEAT): a script that learns an
empirical mutation model from a reference genome (FASTA) and observed variants (VCF).

Conventions of the embedding:
* Python strings are `List Char`; Python ints are `ℤ` (or `ℕ` for pure counts);
  Python floats are modelled as exact rationals `ℚ`.
* Python dicts are association lists (`List (key × value)`) with first-match lookup
  (`alookup`) and in-place-update-or-append insertion (`dictInsert`), which matches
  dict insertion-order semantics.
* `int(x / float(1000))` truncates toward zero, hence `Int.tdiv`.
* Python list slicing (including negative indices) is `pySlice`.
* `sorted(...)` is modelled by an insertion sort (`pySorted`); the claims below only
  depend on it producing a permutation.
* File-system effects are explicit inputs: the presence/contents of the
  `<ref>.trinucCounts` cache file are the parameters `cacheExists` / `cache`.
* The population-frequency extraction from the VCF INFO string (regex + float
  parsing of the `CAF=` field, lines 430-434 / 459-463) is abstracted as a
  parameter `pf : List Char → ℚ`; no claim concerns its value.
* The SNP loop is modelled over the `snp_df` of lines 402-403.  When a bed is
  supplied, lines 404-407 (marked `TODO fix this line` in the source) replace
  `snp_df` by a pandas row-index join of the bed frame with it, whose NaN rows
  and index alignment have no faithful shallow embedding; that joined frame is
  NOT modelled, so run-level statements about the SNP loop are made for runs
  without a region restriction (`isBed = false`).
-/

/-! ### Generic dictionary (Python dict) operations -/

def alookup {κ ν : Type} [DecidableEq κ] : List (κ × ν) → κ → Option ν
  | [], _ => none
  | e :: l, k => if e.1 = k then some e.2 else alookup l k

/-- Python dict assignment `d[k] = v`: update in place if present, else append. -/
def dictInsert {κ ν : Type} [DecidableEq κ] : List (κ × ν) → κ → ν → List (κ × ν)
  | [], k, v => [(k, v)]
  | e :: l, k, v => if e.1 = k then (k, v) :: l else e :: dictInsert l k v

/-- Python `if k not in d: d[k] = 0` followed by `d[k] += n`. -/
def bumpBy {κ : Type} [DecidableEq κ] (d : List (κ × ℕ)) (k : κ) (n : ℕ) : List (κ × ℕ) :=
  dictInsert d k ((alookup d k).getD 0 + n)

/-! ### Python list/string primitives -/

/-- Python slice `s[a:b]` with full slicing semantics (negative indices count
from the end; out-of-range indices are clamped). -/
def pySlice (s : List Char) (a b : ℤ) : List Char :=
  let n : ℤ := s.length
  let a2 : ℤ := if a < 0 then max 0 (n + a) else min a n
  let b2 : ℤ := if b < 0 then max 0 (n + b) else min b n
  (s.take b2.toNat).drop a2.toNat

/-- Biopython `Seq.count_overlap`: number of (possibly overlapping) occurrences
of `pat` in `s`. -/
def countOverlap (s pat : List Char) : ℕ :=
  (List.range s.length).countP (fun i => ((s.drop i).take pat.length) = pat)

/-- Insertion of one element into a sorted list (helper for `pySorted`). -/
def insertSorted {α : Type} (le : α → α → Bool) (x : α) : List α → List α
  | [] => [x]
  | y :: ys => if le x y then x :: y :: ys else y :: insertSorted le x ys

/-- Python `sorted(...)` (ascending); the development only relies on the result
being a permutation of the input that is sorted for `le`. -/
def pySorted {α : Type} (le : α → α → Bool) : List α → List α
  | [] => []
  | x :: xs => insertSorted le x (pySorted le xs)

/-- numpy `np.percentile(xs, q)` with the default linear interpolation between
order statistics, in exact rational arithmetic. -/
def npPercentile (q : ℚ) (xs : List ℚ) : ℚ :=
  let s := pySorted (fun a b => decide (a ≤ b)) xs
  let n := s.length
  if n = 0 then 0
  else
    let r : ℚ := q / 100 * ((n : ℚ) - 1)
    let i : ℕ := (⌊r⌋).toNat
    if i + 1 < n then s.getD i 0 + (r - i) * (s.getD (i + 1) 0 - s.getD i 0)
    else s.getD (n - 1) 0

/-! ### Constants of the script (lines 301-307) -/

def VALID_NUCL : List Char := ['A', 'C', 'G', 'T']

/-- All 64 trinucleotides over {A,C,G,T} (triple loop of line 304). -/
def VALID_TRINUC : List (List Char) :=
  VALID_NUCL.flatMap (fun a => VALID_NUCL.flatMap (fun b => VALID_NUCL.map (fun c => [a, b, c])))

/-- `trinuc[0] + n + trinuc[2] for n in VALID_NUCL if n != trinuc[1]` (line 542):
the trinucleotides obtained from `t` by substituting the center base. -/
def trinucMut (t : List Char) : List (List Char) :=
  match t with
  | [a, b, c] => (VALID_NUCL.filter (fun n => n ≠ b)).map (fun n => [a, n, c])
  | _ => []

/-! ### High-mutation-density clustering (cluster_list, lines 30-50, and the
candidate-region computation of lines 480-496) -/

/-- Tail of `cluster_list`: walk the remaining items keeping the current cluster
separate (the Python code keeps it as the last element of the output list). -/
def clusterGo (delta : ℤ) (cur : List ℤ) (previousValue : ℤ) : List ℤ → List (List ℤ)
  | [] => [cur]
  | item :: rest =>
    if item - previousValue ≤ delta then clusterGo delta (cur ++ [item]) item rest
    else cur :: clusterGo delta [item] item rest

/-- `cluster_list(list_to_cluster, delta)` (lines 30-50); the Python function
assumes a nonempty input (it indexes `[0]`), on `[]` we return `[]`. -/
def cluster_list (listToCluster : List ℤ) (delta : ℤ) : List (List ℤ) :=
  match listToCluster with
  | [] => []
  | x :: rest => clusterGo delta [x] x rest

/-- Python `min(l)` for nonempty `l` (junk value 0 on `[]`). -/
def pyMin (l : List ℤ) : ℤ :=
  match l with
  | [] => 0
  | x :: xs => xs.foldl min x

/-- Python `max(l)` for nonempty `l` (junk value 0 on `[]`). -/
def pyMax (l : List ℤ) : ℤ :=
  match l with
  | [] => 0
  | x :: xs => xs.foldl max x

/-- Lines 485-496: cluster the positions with `dist_thresh = 2000`, then for each
cluster `n = (size, min, max)` compute
`bi = int((min - 2000)/1000.0)*1000`, `bf = int((max + 2000)/1000.0)*1000` and
append `(size / (bf - bi), max(0, bi), min(seqLen, bf))`.  Note the density
denominator uses the unclamped `bi`, `bf`. -/
def candidateRegions (variantPos : List ℤ) (seqLen : ℤ) : List (ℚ × ℤ × ℤ) :=
  let clusteredPos := cluster_list variantPos 2000
  let byLen := clusteredPos.map (fun c => ((c.length : ℤ), pyMin c, pyMax c))
  byLen.map (fun n =>
    let bi := (Int.tdiv (n.2.1 - 2000) 1000) * 1000
    let bf := (Int.tdiv (n.2.2 + 2000) 1000) * 1000
    ((n.1 : ℚ) / ((bf : ℚ) - (bi : ℚ)), max 0 bi, min seqLen bf))

/-! ### High-mutation-region merge pass (lines 502-510) -/

/-- An entry of `HIGH_MUT_REGIONS`: `(ref_name, start, end, density)`. -/
structure Region where
  name : List Char
  start : ℤ
  stop : ℤ
  density : ℚ
deriving DecidableEq

/-- One comparison of the backward sweep: the element at index `i-1` is `r`, the
element at index `i` is the head of `acc`.  Condition of line 503:
`HIGH_MUT_REGIONS[i-1][2] >= HIGH_MUT_REGIONS[i][1] and
 HIGH_MUT_REGIONS[i-1][0] == HIGH_MUT_REGIONS[i][0]` — the second conjunct
compares the tuples' index 0, which is the sequence NAME (the density is index 3). -/
def mergeStep (r : Region) (acc : List Region) : List Region :=
  match acc with
  | [] => [r]
  | s :: rest =>
    if r.stop ≥ s.start ∧ r.name = s.name then
      ⟨r.name, r.start, s.stop, (1 / 2 : ℚ) * r.density + (1 / 2 : ℚ) * s.density⟩ :: rest
    else r :: s :: rest

/-- The backward sweep `for i in range(len(L)-1, 0, -1)` of lines 502-510,
as a right fold (index `i` decreases, and a deletion at `i` only affects
positions ≥ i, so the sweep is exactly a right fold). -/
def mergeRegions (l : List Region) : List Region := l.foldr mergeStep []

/-! ### Per-variant data gathered for common-variant / clustering analysis -/

/-- An element of `VDAT_COMMON`: `(chr_start, REF, REF, ALT, my_pop_freq)`
(lines 435-436 and 464; the second and third components are both `REF`). -/
structure Vdat where
  pos : ℤ
  ref1 : List Char
  ref2 : List Char
  alt : List Char
  freq : ℚ
deriving DecidableEq

/-- Lexicographic comparison of Python strings (by code point). -/
def cmpChars : List Char → List Char → Ordering
  | [], [] => .eq
  | [], _ :: _ => .lt
  | _ :: _, [] => .gt
  | a :: as, b :: bs => (compare a b).then (cmpChars as bs)

def cmpRat (a b : ℚ) : Ordering := if a < b then .lt else if b < a then .gt else .eq

/-- Python tuple comparison for `sorted(VDAT_COMMON)`. -/
def cmpVdat (x y : Vdat) : Ordering :=
  (compare x.pos y.pos).then ((cmpChars x.ref1 y.ref1).then
    ((cmpChars x.ref2 y.ref2).then ((cmpChars x.alt y.alt).then (cmpRat x.freq y.freq))))

def vdatLe (x y : Vdat) : Bool := cmpVdat x y != Ordering.gt

/-- Lines 472-476: compute the 95th percentile of the population frequencies of
this sequence's `VDAT_COMMON` and emit every (sorted) tuple at or above it,
tagged with the sequence name, as `(ref_name, k[0], k[1], k[3], k[4])`. -/
def identifyCommon (refName : List Char) (vdat : List Vdat) :
    List (List Char × ℤ × List Char × List Char × ℚ) :=
  let minValue := npPercentile 95 (vdat.map (fun n => n.freq))
  ((pySorted vdatLe vdat).filter (fun k => decide (minValue ≤ k.freq))).map
    (fun k => (refName, k.pos, k.ref1, k.alt, k.freq))

/-! ### Variant records and the dataframe preprocessing of lines 343-378 -/

/-- A row of `matching_variants` after the rename of line 343: we keep the fields
the core uses.  `pos` is `chr_start`, already converted to 0-based (line 347);
`chr_end` is set equal to `chr_start` at line 348 and never changes, so the
snp-side filter `chr_start == chr_end` (line 403) is vacuous and not modelled. -/
structure Variant where
  chrom : List Char
  pos : ℤ
  ref : List Char
  alt : List Char
  info : List Char
deriving DecidableEq

/-- `matching_variants.replace('', '-')` (line 359) on one cell. -/
def emptyToDash (s : List Char) : List Char := if s = [] then ['-'] else s

/-- Lines 351-359: a record is an indel candidate when the (original) REF and ALT
lengths differ; for candidates both alleles are trimmed of their first character
(`"REF"].str[1:]`), then empty cells become `'-'`.  The returned Bool is
membership in `indices_to_indels`. -/
def preprocessVariant (v : Variant) : Variant × Bool :=
  let isIndel := v.alt.length ≠ v.ref.length
  let r := emptyToDash (if isIndel then v.ref.drop 1 else v.ref)
  let a := emptyToDash (if isIndel then v.alt.drop 1 else v.alt)
  (⟨v.chrom, v.pos, r, a, v.info⟩, isIndel)

/-- Lines 368-374: `complex_variants` = rows whose (trimmed) REF and ALT both
contain no dash and both have length > 1; such rows are dropped. -/
def isComplex (v : Variant) : Bool :=
  !(v.ref.contains '-') && !(v.alt.contains '-') &&
    decide (v.ref.length > 1) && decide (v.alt.length > 1)

/-- Lines 362-374: drop multi-alternate rows (a comma in the trimmed ALT) and
complex rows. -/
def keepVariant (vb : Variant × Bool) : Bool :=
  !(vb.1.alt.contains ',') && !(isComplex vb.1)

/-- The whole variant-table preprocessing (lines 351-374). -/
def preprocessVariants (vs : List Variant) : List (Variant × Bool) :=
  (vs.map preprocessVariant).filter keepVariant

/-! ### The per-sequence processing loop of `main` (lines 389-510) -/

/-- The global accumulators of `main` that the per-sequence loop mutates. -/
structure GlobalState where
  trinucTransitionCount : List ((List Char × List Char) × ℕ)
  snpCount : ℕ
  snpTransitionCount : List ((List Char × List Char) × ℕ)
  indelCount : List (ℤ × ℕ)
  totalReflen : ℕ
  commonVariants : List (List Char × ℤ × List Char × List Char × ℚ)
  highMutRegions : List Region
deriving DecidableEq

def initialState : GlobalState := ⟨[], 0, [], [], 0, [], []⟩

/-- One iteration of the SNP loop (lines 411-439).  `pf` abstracts the
population-frequency extraction from the INFO string (lines 430-434).
`Except.error` is the fatal `exit(1)` of line 439 (ref-allele mismatch). -/
def processSnpRow (pf : List Char → ℚ) (refSequence : List Char) (row : Variant)
    (st : GlobalState) (vdat : List Vdat) : Except Unit (GlobalState × List Vdat) :=
  let trinucToAnalyze := pySlice refSequence (row.pos - 1) (row.pos + 2)
  if trinucToAnalyze ∈ VALID_TRINUC then
    if row.ref = [trinucToAnalyze.getD 1 ' '] then
      let trinucAlt := [trinucToAnalyze.getD 0 ' '] ++ row.alt ++ [trinucToAnalyze.getD 2 ' ']
      if trinucAlt ∈ VALID_TRINUC then
        .ok ({ st with
                trinucTransitionCount := bumpBy st.trinucTransitionCount (trinucToAnalyze, trinucAlt) 1,
                snpCount := st.snpCount + 1,
                snpTransitionCount := bumpBy st.snpTransitionCount (row.ref, row.alt) 1 },
             vdat ++ [⟨row.pos, row.ref, row.ref, row.alt, pf row.info⟩])
      else .ok (st, vdat)
    else .error ()
  else .ok (st, vdat)

/-- The SNP loop over `snp_df` (lines 409-439), aborting at the first mismatch. -/
def snpLoop (pf : List Char → ℚ) (refSequence : List Char) :
    List Variant → GlobalState × List Vdat → Except Unit (GlobalState × List Vdat)
  | [], acc => .ok acc
  | row :: rest, acc =>
    match processSnpRow pf refSequence row acc.1 acc.2 with
    | .error e => .error e
    | .ok acc2 => snpLoop pf refSequence rest acc2

/-- One iteration of the indel loop (lines 444-464): a `'-'` allele counts as
length 0; when the lengths differ the signed length `len_alt - len_ref` is
tallied and the tuple is appended to `VDAT_COMMON`. -/
def processIndelRow (pf : List Char → ℚ) (acc : GlobalState × List Vdat) (row : Variant) :
    GlobalState × List Vdat :=
  let lenRef := if row.ref.contains '-' then 0 else row.ref.length
  let lenAlt := if row.alt.contains '-' then 0 else row.alt.length
  if lenRef ≠ lenAlt then
    ({ acc.1 with indelCount := bumpBy acc.1.indelCount ((lenAlt : ℤ) - (lenRef : ℤ)) 1 },
     acc.2 ++ [⟨row.pos, row.ref, row.ref, row.alt, pf row.info⟩])
  else acc

def indelLoop (pf : List Char → ℚ) (rows : List Variant) (acc : GlobalState × List Vdat) :
    GlobalState × List Vdat :=
  rows.foldl (processIndelRow pf) acc

/-- Line 477: `VDAT_COMMON = {(n[0],n[1],n[2],n[3]): n[4] for n in VDAT_COMMON}`. -/
def vdatDedup (vdat : List Vdat) : List ((ℤ × List Char × List Char × List Char) × ℚ) :=
  vdat.foldl (fun d n => dictInsert d (n.pos, n.ref1, n.ref2, n.alt) n.freq) []

/-- The body of `for ref_name in matching_chromosomes` (lines 389-510) for one
sequence: tally non-N length, run the SNP and indel loops, skip ahead when no
variants were gathered (line 467), emit common variants, cluster positions and
append the ≥ 97th-percentile candidate regions, then run the merge sweep over
the accumulated `HIGH_MUT_REGIONS`.  `snpRows` is the `snp_df` of lines
402-403; the bed-joined replacement of lines 404-407 is not modelled (see the
header), so as a model of the program this function covers runs without a
region restriction.  The indel loop (lines 442-464) is unaffected by that
join. -/
def processSequence (pf : List Char → ℚ) (st0 : GlobalState) (name refSequence : List Char)
    (snpRows indelRows : List Variant) : Except Unit GlobalState :=
  let st := { st0 with totalReflen := st0.totalReflen + (refSequence.length - refSequence.count 'N') }
  match snpLoop pf refSequence snpRows (st, []) with
  | .error e => .error e
  | .ok acc1 =>
    let acc2 := indelLoop pf indelRows acc1
    let st1 := acc2.1
    let vdatCommon := acc2.2
    if vdatCommon = [] then .ok st1
    else
      let st2 := { st1 with commonVariants := st1.commonVariants ++ identifyCommon name vdatCommon }
      let variantPos := pySorted (fun a b => decide (a ≤ b)) ((vdatDedup vdatCommon).map (fun e => e.1.1))
      let cands : List (ℚ × ℤ × ℤ) := candidateRegions variantPos (refSequence.length : ℤ)
      let minimumValue := npPercentile 97 (cands.map (fun n : ℚ × ℤ × ℤ => n.1))
      let st3 := { st2 with highMutRegions := st2.highMutRegions ++
        ((cands.filter (fun n : ℚ × ℤ × ℤ => decide (minimumValue ≤ n.1))).map
          (fun n : ℚ × ℤ × ℤ => (⟨name, n.2.1, n.2.2, n.1⟩ : Region))) }
      .ok { st3 with highMutRegions := mergeRegions st3.highMutRegions }

/-- `matching_chromosomes` (lines 215-223): reference names that occur as a
variant chromosome. -/
def matchingChromosomes (reference : List (List Char × List Char)) (variants : List Variant) :
    List (List Char) :=
  (reference.map (fun e => e.1)).filter (fun n => variants.any (fun v => decide (v.chrom = n)))

/-- `variants_to_process` narrowed to one chromosome (line 397). -/
def rowsFor (pre : List (Variant × Bool)) (name : List Char) : List (Variant × Bool) :=
  pre.filter (fun vb => decide (vb.1.chrom = name))

/-- `snp_df` (line 402): this chromosome's rows not in `indices_to_indels`. -/
def snpRowsFor (pre : List (Variant × Bool)) (name : List Char) : List Variant :=
  ((rowsFor pre name).filter (fun vb => !vb.2)).map (fun vb => vb.1)

/-- `indel_df` (line 442): this chromosome's rows in `indices_to_indels`. -/
def indelRowsFor (pre : List (Variant × Bool)) (name : List Char) : List Variant :=
  ((rowsFor pre name).filter (fun vb => vb.2)).map (fun vb => vb.1)

/-- The loop `for ref_name in matching_chromosomes` (line 389). -/
def mainLoop (pf : List Char → ℚ) (reference : List (List Char × List Char))
    (pre : List (Variant × Bool)) : List (List Char) → GlobalState → Except Unit GlobalState
  | [], st => .ok st
  | name :: rest, st =>
    match processSequence pf st name ((alookup reference name).getD [])
        (snpRowsFor pre name) (indelRowsFor pre name) with
    | .error e => .error e
    | .ok st2 => mainLoop pf reference pre rest st2

/-! ### Reference trinucleotide counting (lines 122-150) and the count cache
(lines 97-119) -/

/-- The bed table rows the core consumes (`process_bedfile`, lines 247-265). -/
structure BedRow where
  chrom : List Char
  start : ℤ
  stop : ℤ
deriving DecidableEq

/-- `my_bed['track_len'] = my_bed.end - my_bed.start + 1` (line 264). -/
def trackLen (r : BedRow) : ℤ := r.stop - r.start + 1

/-- `check_matching_regions` (lines 153-173): keep the bed rows whose chromosome
also occurs in the variant file. -/
def matchingBedOf (myBed : List BedRow) (variants : List Variant) : List BedRow :=
  myBed.filter (fun r => variants.any (fun v => decide (v.chrom = r.chrom)))

/-- The inner `for trinuc in valid_trinuc` tally (lines 137-140 / 145-148). -/
def countTrinucsInSeq (counts : List (List Char × ℕ)) (subSeq : List Char) :
    List (List Char × ℕ) :=
  VALID_TRINUC.foldl (fun cs t => bumpBy cs t (countOverlap subSeq t)) counts

/-- `count_trinucleotides` (lines 122-150), starting from the empty
`TRINUC_REF_COUNT`: with a bed, count inside every matching bed region
(regardless of the cache); otherwise scan whole sequences unless the cache file
exists, in which case nothing is counted here. -/
def count_trinucleotides (isBed cacheExists : Bool) (reference : List (List Char × List Char))
    (mchroms : List (List Char)) (matchingBed : List BedRow) : List (List Char × ℕ) :=
  if isBed then
    mchroms.foldl (fun cs name =>
      ((matchingBed.filter (fun r => decide (r.chrom = name))).map
          (fun r => (r.start, r.stop))).foldl
        (fun cs2 sr => countTrinucsInSeq cs2 (pySlice ((alookup reference name).getD []) sr.1 sr.2))
        cs) []
  else if !cacheExists then
    mchroms.foldl (fun cs name => countTrinucsInSeq cs ((alookup reference name).getD [])) []
  else []

/-- The reading branch of `counts_from_file` (lines 103-109): when the cache
file exists, every line's `trinuc ↦ count` is assigned into `trinuc_ref_count`
(overwriting whatever is already there).  The `elif save_trinuc` branch only
writes the cache file and leaves the counts unchanged, so it is not modelled. -/
def counts_from_file (cacheExists : Bool) (cache : List (List Char × ℕ))
    (counts : List (List Char × ℕ)) : List (List Char × ℕ) :=
  if cacheExists then cache.foldl (fun m kv => dictInsert m kv.1 kv.2) counts else counts

/-! ### Probability computation (compute_probabilities, lines 70-94) -/

/-- `my_count` (lines 80-83): total transition count out of trinucleotide `t`. -/
def outgoingCount (transCount : List ((List Char × List Char) × ℕ)) (t : List Char) : ℕ :=
  ((transCount.filter (fun kv => decide (kv.1.1 = t))).map (fun kv => kv.2)).sum

/-- The entries written by the inner loop of lines 85-87 for one trinucleotide. -/
def transEntries (transCount : List ((List Char × List Char) × ℕ)) (t : List Char)
    (myCount : ℕ) : List ((List Char × List Char) × ℚ) :=
  transCount.filterMap (fun kv =>
    if kv.1.1 = t then some (kv.1, (kv.2 : ℚ) / (myCount : ℚ)) else none)

/-- The trinucleotide part of `compute_probabilities` (lines 79-87), iterating
over the entries of `trinuc_ref_count`.  (The Python code iterates the keys in
sorted order; for the association-list maps produced here only the entry for
each key matters, and each key is written exactly once, so the iteration order
only permutes entries of distinct keys.  Python float division would raise
ZeroDivisionError at line 84 for a context with reference count 0; in `ℚ` the
quotient totalizes to 0 — every claim about these values carries a nonzero
hypothesis, so the collapsed error path is never relied on.) -/
def computeTrinucProbs : List (List Char × ℕ) → List ((List Char × List Char) × ℕ) →
    (List (List Char × ℚ)) × (List ((List Char × List Char) × ℚ))
  | [], _ => ([], [])
  | (t, rc) :: rest, tc =>
    let myCount := outgoingCount tc t
    let p := computeTrinucProbs rest tc
    ((t, (myCount : ℚ) / (rc : ℚ)) :: p.1, transEntries tc t myCount ++ p.2)

/-- The SNP part of `compute_probabilities` (lines 89-94). -/
def snpTransFreqOf (snpTC : List ((List Char × List Char) × ℕ)) :
    List ((List Char × List Char) × ℚ) :=
  VALID_NUCL.flatMap (fun n1 =>
    let rollingTot := (VALID_NUCL.filterMap (fun n2 => alookup snpTC ([n1], [n2]))).sum
    VALID_NUCL.filterMap (fun n2 =>
      (alookup snpTC ([n1], [n2])).map (fun c => (([n1], [n2]), (c : ℚ) / (rollingTot : ℚ)))))

/-! ### Frequency computation (compute_frequencies, lines 53-67) -/

/-- `compute_frequencies` (lines 53-67); the result is
`(snp_freq, avg_indel_freq, indel_freq, avg_mut_rate)`.  With a bed, the rate
denominator is the sum of the `track_len` column, i.e. of `end - start + 1`. -/
def compute_frequencies (snpCount : ℕ) (indelCount : List (ℤ × ℕ)) (totalReflen : ℕ)
    (isBed : Bool) (myBed : List BedRow) (totalVar : ℕ) :
    ℚ × ℚ × List (ℤ × ℚ) × ℚ :=
  let snpFreq : ℚ := (snpCount : ℚ) / (totalVar : ℚ)
  let avgIndelFreq : ℚ := 1 - snpFreq
  let indelFreq := indelCount.map (fun kv => (kv.1, ((kv.2 : ℚ) / (totalVar : ℚ)) / avgIndelFreq))
  let avgMutRate : ℚ :=
    if isBed then (totalVar : ℚ) / ((myBed.map (fun r => ((trackLen r : ℤ) : ℚ))).sum)
    else (totalVar : ℚ) / (totalReflen : ℚ)
  (snpFreq, avgIndelFreq, indelFreq, avgMutRate)

/-! ### Null-entry backfill (lines 540-553) -/

/-- The elementary backfill action, iterated: `if key not in d: d[key] = 0.`
(lines 543-544 and 547-548) over a list of keys. -/
def zeroFill {κ : Type} [DecidableEq κ] (m : List (κ × ℚ)) (keys : List κ) : List (κ × ℚ) :=
  keys.foldl (fun tr k2 => if alookup tr k2 = none then tr ++ [(k2, 0)] else tr) m

/-- One iteration of the backfill loop of lines 541-549 over `(mutProb, transProbs)`:
give `t` a 0 mutation probability if absent, and give each center-substituted
`(t, t2)` a 0 transition probability if absent. -/
def backfillStep (st : (List (List Char × ℚ)) × (List ((List Char × List Char) × ℚ)))
    (t : List Char) : (List (List Char × ℚ)) × (List ((List Char × List Char) × ℚ)) :=
  (zeroFill st.1 [t], zeroFill st.2 ((trinucMut t).map (fun t2 => (t, t2))))

/-- The backfill loop `for trinuc in VALID_TRINUC` (lines 541-549). -/
def backfillTables (mutProb : List (List Char × ℚ))
    (transProbs : List ((List Char × List Char) × ℚ)) :
    (List (List Char × ℚ)) × (List ((List Char × List Char) × ℚ)) :=
  VALID_TRINUC.foldl backfillStep (mutProb, transProbs)

/-! ### The whole model construction (`main`, lines 299-592) -/

/-- The pickled output dictionary (lines 576-592), with the two auxiliary lists
included (they are omitted only under `--skip-common`, which no claim concerns). -/
structure MutModel where
  avgMutRate : ℚ
  snpFreq : ℚ
  snpTransFreq : List ((List Char × List Char) × ℚ)
  indelFreq : List (ℤ × ℚ)
  trinucMutProb : List (List Char × ℚ)
  trinucTransProbs : List ((List Char × List Char) × ℚ)
  commonVariants : List (List Char × ℤ × List Char × List Char × ℚ)
  highMutRegions : List Region
deriving DecidableEq

/-- Lines 513-592 after the per-sequence loop: load the count cache if present,
abort when no usable variant was found (lines 517-520), then compute the
probability and frequency tables, backfill the missing entries and build the
output record. -/
def assembleModel (isBed : Bool) (myBed : List BedRow) (cacheExists : Bool)
    (cache : List (List Char × ℕ)) (trinucRefCount0 : List (List Char × ℕ))
    (st : GlobalState) : Except Unit MutModel :=
  let trinucRefCount := counts_from_file cacheExists cache trinucRefCount0
  let totalVar := st.snpCount + ((st.indelCount.map (fun kv => kv.2)).sum)
  if totalVar = 0 then .error ()
  else
    let probs := computeTrinucProbs trinucRefCount st.trinucTransitionCount
    let snpTF := snpTransFreqOf st.snpTransitionCount
    let freqs := compute_frequencies st.snpCount st.indelCount st.totalReflen isBed myBed totalVar
    let backfilled := backfillTables probs.1 probs.2
    .ok ⟨freqs.2.2.2, freqs.1, snpTF, freqs.2.2.1, backfilled.1, backfilled.2,
         st.commonVariants, st.highMutRegions⟩

/-- `main` (lines 299-592) as a function of its external inputs.  `Except.error`
covers the fatal exits: the ref-allele mismatch of line 439 and the
zero-usable-variants exit of lines 517-520.  No model value is produced on
error — the pickle dump of line 592 only happens at the very end of `main`.
The SNP loop of each sequence receives `snpRowsFor`, the `snp_df` of lines
402-403: with `isBed = true` the program would instead iterate the row-index
join of lines 404-407 (not modelled — see the header), so `genModel` is a
faithful model of the program for `isBed = false`; the `isBed = true` instances
are used only through `assembleModel`-level facts (trinucleotide counting and
frequency computation, which the join does not touch). -/
def genModel (pf : List Char → ℚ) (reference : List (List Char × List Char))
    (variants : List Variant) (isBed : Bool) (myBed : List BedRow)
    (cacheExists : Bool) (cache : List (List Char × ℕ)) : Except Unit MutModel :=
  let pre := preprocessVariants variants
  let mchroms := matchingChromosomes reference variants
  let trinucRefCount0 :=
    count_trinucleotides isBed cacheExists reference mchroms (matchingBedOf myBed variants)
  match mainLoop pf reference pre mchroms initialState with
  | .error e => .error e
  | .ok st => assembleModel isBed myBed cacheExists cache trinucRefCount0 st

/-! ### Generic lemmas about the dictionary operations -/

theorem alookup_append {κ ν : Type} [DecidableEq κ] (l1 l2 : List (κ × ν)) (k : κ) :
    alookup (l1 ++ l2) k = (alookup l1 k).or (alookup l2 k) := by
  induction l1 with
  | nil => simp [alookup]
  | cons e l ih =>
    by_cases h : e.1 = k
    · simp [alookup, h]
    · simp [alookup, h, ih]

theorem alookup_some_append {κ ν : Type} [DecidableEq κ] (l1 l2 : List (κ × ν)) (k : κ) (v : ν)
    (h : alookup l1 k = some v) : alookup (l1 ++ l2) k = some v := by
  rw [alookup_append, h]; rfl

/-! ### Lemmas for the merge pass (claim C1) -/

theorem mergeRegions_cons (x : Region) (l : List Region) :
    mergeRegions (x :: l) = mergeStep x (mergeRegions l) := rfl

theorem mergeRegions_of_no_mergeable_pair (l : List Region)
    (h : List.Chain' (fun a b => ¬(a.stop ≥ b.start ∧ a.name = b.name)) l) :
    mergeRegions l = l := by
  induction l with
  | nil => rfl
  | cons x l ih =>
    rw [List.chain'_cons'] at h
    rw [mergeRegions_cons, ih h.2]
    cases l with
    | nil => rfl
    | cons y l2 =>
      have hxy : ¬(x.stop ≥ y.start ∧ x.name = y.name) := h.1 y rfl
      simp only [mergeStep, if_neg hxy]

/-- C1 counterexample: the merge pass merges two adjacent overlapping regions of
the SAME sequence even though their density scores differ (1 ≠ 2) — the equality
tested at line 503 is on the tuples' index 0, the sequence name, not the density.
Under the claim, this list (no adjacent pair with equal densities) would be
returned unchanged; the code merges it. -/
theorem merge_requires_equal_density_counterexample :
    mergeRegions [⟨['c'], 0, 100, 1⟩, ⟨['c'], 50, 200, 2⟩] = [⟨['c'], 0, 200, 3 / 2⟩]
      ∧ (1 : ℚ) ≠ 2 := by
  constructor
  · norm_num [mergeRegions, mergeStep]
  · norm_num

/-- C1 (amended): in the merge pass, two adjacent entries are merged exactly when
the earlier region's end coordinate is ≥ the later region's start coordinate and
the two regions' SEQUENCE NAMES are equal (density equality is not required);
the merged entry spans from the earlier start to the later end with density the
50/50 average of the two, and a list containing no such mergeable adjacent pair
is returned unchanged. -/
theorem merge_pass_amended (l : List Region) (r s : Region) :
    (List.Chain' (fun a b => ¬(a.stop ≥ b.start ∧ a.name = b.name)) l → mergeRegions l = l)
    ∧ (r.stop ≥ s.start → r.name = s.name →
        mergeRegions [r, s] = [⟨r.name, r.start, s.stop, (r.density + s.density) / 2⟩])
    ∧ (¬(r.stop ≥ s.start ∧ r.name = s.name) → mergeRegions [r, s] = [r, s]) := by
  refine ⟨mergeRegions_of_no_mergeable_pair l, fun h1 h2 => ?_, fun h => ?_⟩
  · show mergeStep r (mergeStep s []) = _
    simp only [mergeStep, if_pos (And.intro h1 h2)]
    congr 1
    ring_nf
  · show mergeStep r (mergeStep s []) = _
    simp only [mergeStep, if_neg h]

/-- C1 witness: the amended theorem applied at concrete inputs — an unmergeable
pair stays unchanged, and a mergeable pair (overlapping, same name) becomes one
region with the averaged density. -/
theorem merge_pass_amended_witness :
    (mergeRegions [⟨['c'], 0, 100, 1⟩, ⟨['d'], 50, 200, 1⟩]
        = [⟨['c'], 0, 100, 1⟩, ⟨['d'], 50, 200, 1⟩])
    ∧ ((100 : ℤ) ≥ 80 ∧ mergeRegions [⟨['e'], 10, 100, 4⟩, ⟨['e'], 80, 300, 6⟩]
        = [⟨['e'], 10, 300, (4 + 6) / 2⟩]) :=
  ⟨(merge_pass_amended [⟨['c'], 0, 100, 1⟩, ⟨['d'], 50, 200, 1⟩]
      ⟨['c'], 0, 100, 1⟩ ⟨['d'], 50, 200, 1⟩).1 (List.chain'_pair.mpr (by decide)),
   ⟨by decide,
    (merge_pass_amended [] ⟨['e'], 10, 100, 4⟩ ⟨['e'], 80, 300, 6⟩).2.1 (by decide) rfl⟩⟩

/-! ### Lemmas for the SNP loop (claims C10 and C5) -/

theorem pySlice_neg_one_two_short (s : List Char) : (pySlice s (-1) 2).length ≤ 2 := by
  have hb : (if (2 : ℤ) < 0 then max 0 ((s.length : ℤ) + 2) else min 2 (s.length : ℤ))
      = min 2 (s.length : ℤ) := by norm_num
  simp only [pySlice, hb, List.length_drop, List.length_take]
  have h2 : (min 2 (s.length : ℤ)).toNat ≤ 2 :=
    Int.toNat_le.mpr (le_trans (min_le_left _ _) (by norm_num))
  omega

theorem valid_trinuc_length (t : List Char) (h : t ∈ VALID_TRINUC) : t.length = 3 := by
  fin_cases h <;> rfl

theorem pySlice_neg_one_two_not_valid (s : List Char) : pySlice s (-1) 2 ∉ VALID_TRINUC := by
  intro h
  have h3 := valid_trinuc_length _ h
  have h2 := pySlice_neg_one_two_short s
  omega

/-- C10: a candidate SNP record at 0-based position 0 is always silently skipped —
the extracted window is `ref_sequence[-1:2]`, which is never a valid
trinucleotide, so the row changes no count table, appends nothing to
`VDAT_COMMON`, and does not trigger the fatal ref-allele-mismatch abort even
when `row.REF` differs from the actual base at position 0. -/
theorem snp_at_position_zero_skipped (pf : List Char → ℚ) (refSequence : List Char)
    (row : Variant) (st : GlobalState) (vdat : List Vdat) (hpos : row.pos = 0) :
    processSnpRow pf refSequence row st vdat = .ok (st, vdat) := by
  have hwin : pySlice refSequence (row.pos - 1) (row.pos + 2) ∉ VALID_TRINUC := by
    rw [hpos]
    norm_num [pySlice_neg_one_two_not_valid]
  simp only [processSnpRow, if_neg hwin]

/-- C10 witness: the theorem applied to a concrete position-0 row whose declared
reference allele ('C') mismatches the actual base ('A') — still skipped, no abort. -/
theorem snp_at_position_zero_skipped_witness :
    (⟨['c'], 0, ['C'], ['T'], []⟩ : Variant).pos = 0 ∧
      processSnpRow (fun _ => 0) "AAAA".toList ⟨['c'], 0, ['C'], ['T'], []⟩ initialState []
        = .ok (initialState, []) :=
  ⟨rfl, snp_at_position_zero_skipped (fun _ => 0) "AAAA".toList ⟨['c'], 0, ['C'], ['T'], []⟩
    initialState [] rfl⟩

theorem processSnpRow_mismatch_error (pf : List Char → ℚ) (refSequence : List Char)
    (row : Variant)
    (hwin : pySlice refSequence (row.pos - 1) (row.pos + 2) ∈ VALID_TRINUC)
    (hmm : row.ref ≠ [(pySlice refSequence (row.pos - 1) (row.pos + 2)).getD 1 ' '])
    (st : GlobalState) (vdat : List Vdat) :
    processSnpRow pf refSequence row st vdat = .error () := by
  simp only [processSnpRow, if_pos hwin, if_neg hmm]

theorem snpLoop_error_of_mem (pf : List Char → ℚ) (refSequence : List Char) (row : Variant)
    (herr : ∀ st vdat, processSnpRow pf refSequence row st vdat = .error ())
    (rows : List Variant) (hrow : row ∈ rows) (acc : GlobalState × List Vdat) :
    snpLoop pf refSequence rows acc = .error () := by
  induction rows generalizing acc with
  | nil => cases hrow
  | cons r rest ih =>
    rcases List.mem_cons.mp hrow with h | h
    · subst h
      simp only [snpLoop, herr acc.1 acc.2]
    · simp only [snpLoop]
      cases hp : processSnpRow pf refSequence r acc.1 acc.2 with
      | error e => cases e; rfl
      | ok acc2 => exact ih h acc2

theorem processSequence_error (pf : List Char → ℚ) (st0 : GlobalState)
    (name refSequence : List Char) (snpRows indelRows : List Variant)
    (hloop : ∀ acc, snpLoop pf refSequence snpRows acc = .error ()) :
    processSequence pf st0 name refSequence snpRows indelRows = .error () := by
  simp only [processSequence, hloop]

theorem mainLoop_error_of_mem (pf : List Char → ℚ) (reference : List (List Char × List Char))
    (pre : List (Variant × Bool)) (name : List Char)
    (herr : ∀ st, processSequence pf st name ((alookup reference name).getD [])
      (snpRowsFor pre name) (indelRowsFor pre name) = .error ())
    (chroms : List (List Char)) (hname : name ∈ chroms) (st : GlobalState) :
    mainLoop pf reference pre chroms st = .error () := by
  induction chroms generalizing st with
  | nil => cases hname
  | cons n rest ih =>
    rcases List.mem_cons.mp hname with h | h
    · subst h
      simp only [mainLoop, herr st]
    · simp only [mainLoop]
      cases hp : processSequence pf st n ((alookup reference n).getD [])
          (snpRowsFor pre n) (indelRowsFor pre n) with
      | error e => cases e; rfl
      | ok st2 => exact ih h st2

/-- C5: in a run without a region restriction (with a bed, the SNP loop iterates
the unmodelled row-index join of lines 404-407 — see the header — under which a
mismatching row can fail to be processed at all), if any candidate-SNP row of
any processed sequence has a valid trinucleotide window whose center differs
from the row's declared reference allele, the whole run aborts with a fatal
error and no model value is produced (`genModel` returns `Except.error`, and
the output record of line 592 is only built in the `.ok` branch). -/
theorem ref_mismatch_aborts_run (pf : List Char → ℚ)
    (reference : List (List Char × List Char)) (variants : List Variant)
    (myBed : List BedRow) (cacheExists : Bool) (cache : List (List Char × ℕ))
    (name : List Char) (row : Variant)
    (hname : name ∈ matchingChromosomes reference variants)
    (hrow : row ∈ snpRowsFor (preprocessVariants variants) name)
    (hwin : pySlice ((alookup reference name).getD []) (row.pos - 1) (row.pos + 2)
      ∈ VALID_TRINUC)
    (hmm : row.ref ≠
      [(pySlice ((alookup reference name).getD []) (row.pos - 1) (row.pos + 2)).getD 1 ' ']) :
    genModel pf reference variants false myBed cacheExists cache = .error () := by
  have hmain : mainLoop pf reference (preprocessVariants variants)
      (matchingChromosomes reference variants) initialState = .error () := by
    refine mainLoop_error_of_mem pf reference _ name (fun st => ?_) _ hname initialState
    refine processSequence_error pf st name _ _ _ (fun acc => ?_)
    exact snpLoop_error_of_mem pf _ row
      (processSnpRow_mismatch_error pf _ row hwin hmm) _ hrow acc
  simp only [genModel, hmain]

/-- C5 witness: a concrete run — reference sequence `AACGT`, one variant claiming
REF `G` at 0-based position 2 where the actual base is `C` — aborts with no model. -/
theorem ref_mismatch_aborts_run_witness :
    (['c'] ∈ matchingChromosomes [(['c'], "AACGT".toList)]
        [⟨['c'], 2, ['G'], ['T'], []⟩]
      ∧ (⟨['c'], 2, ['G'], ['T'], []⟩ : Variant) ∈
        snpRowsFor (preprocessVariants [⟨['c'], 2, ['G'], ['T'], []⟩]) ['c']
      ∧ pySlice ((alookup [(['c'], "AACGT".toList)] ['c']).getD [])
          ((2 : ℤ) - 1) ((2 : ℤ) + 2) ∈ VALID_TRINUC)
    ∧ genModel (fun _ => 0) [(['c'], "AACGT".toList)] [⟨['c'], 2, ['G'], ['T'], []⟩]
        false [] false [] = .error () :=
  ⟨⟨by decide, by decide, by decide⟩,
   ref_mismatch_aborts_run (fun _ => 0) [(['c'], "AACGT".toList)]
     [⟨['c'], 2, ['G'], ['T'], []⟩] [] false [] ['c'] ⟨['c'], 2, ['G'], ['T'], []⟩
     (by decide) (by decide) (by decide) (by decide)⟩

/-! ### Lemmas for the mutation-rate computation (claim C4) -/

theorem processSnpRow_ok_totalReflen (pf : List Char → ℚ) (refSequence : List Char)
    (row : Variant) (st : GlobalState) (vdat : List Vdat) (acc2 : GlobalState × List Vdat)
    (h : processSnpRow pf refSequence row st vdat = .ok acc2) :
    acc2.1.totalReflen = st.totalReflen := by
  simp only [processSnpRow] at h
  split at h
  · split at h
    · split at h
      · injection h with h2; subst h2; rfl
      · injection h with h2; subst h2; rfl
    · simp at h
  · injection h with h2; subst h2; rfl

theorem snpLoop_ok_totalReflen (pf : List Char → ℚ) (refSequence : List Char)
    (rows : List Variant) : ∀ acc acc2, snpLoop pf refSequence rows acc = .ok acc2 →
    acc2.1.totalReflen = acc.1.totalReflen := by
  induction rows with
  | nil =>
    intro acc acc2 h
    simp only [snpLoop] at h
    injection h with h2
    subst h2; rfl
  | cons r rest ih =>
    intro acc acc2 h
    simp only [snpLoop] at h
    cases hp : processSnpRow pf refSequence r acc.1 acc.2 with
    | error e => rw [hp] at h; simp at h
    | ok accm =>
      rw [hp] at h
      rw [ih accm acc2 h, processSnpRow_ok_totalReflen pf refSequence r acc.1 acc.2 accm hp]

theorem processIndelRow_totalReflen (pf : List Char → ℚ) (acc : GlobalState × List Vdat)
    (row : Variant) : (processIndelRow pf acc row).1.totalReflen = acc.1.totalReflen := by
  simp only [processIndelRow]
  repeat' split
  all_goals rfl

theorem indelLoop_totalReflen (pf : List Char → ℚ) (rows : List Variant) :
    ∀ acc, (indelLoop pf rows acc).1.totalReflen = acc.1.totalReflen := by
  induction rows with
  | nil => intro acc; rfl
  | cons r rest ih =>
    intro acc
    have h1 : indelLoop pf (r :: rest) acc = indelLoop pf rest (processIndelRow pf acc r) := by
      simp only [indelLoop, List.foldl_cons]
    rw [h1, ih (processIndelRow pf acc r), processIndelRow_totalReflen]

theorem processSequence_ok_totalReflen (pf : List Char → ℚ) (st0 : GlobalState)
    (name refSequence : List Char) (snpRows indelRows : List Variant) (st2 : GlobalState)
    (h : processSequence pf st0 name refSequence snpRows indelRows = .ok st2) :
    st2.totalReflen = st0.totalReflen + (refSequence.length - refSequence.count 'N') := by
  simp only [processSequence] at h
  cases hp : snpLoop pf refSequence snpRows
      ({ st0 with totalReflen := st0.totalReflen
          + (refSequence.length - refSequence.count 'N') }, []) with
  | error e => rw [hp] at h; simp at h
  | ok acc1 =>
    rw [hp] at h
    have h1 : acc1.1.totalReflen
        = st0.totalReflen + (refSequence.length - refSequence.count 'N') := by
      rw [snpLoop_ok_totalReflen pf refSequence snpRows _ acc1 hp]
    have h2 : (indelLoop pf indelRows acc1).1.totalReflen = acc1.1.totalReflen :=
      indelLoop_totalReflen pf indelRows acc1
    simp only [] at h
    split at h
    · injection h with h3; subst h3; rw [h2, h1]
    · injection h with h3; subst h3
      exact h2.trans h1

/-- C4 counterexample: with a region restriction, the emitted rate divides by the
bed track lengths computed as `end - start + 1` (line 264), not by the half-open
length `end - start`: one region `[0, 10)` with 22 total variants gives rate
`22 / 11 = 2`, while the claim's half-open length would give `22 / 10`. -/
theorem avg_mut_rate_counterexample :
    (compute_frequencies 22 [] 100 true [⟨['c'], 0, 10⟩] 22).2.2.2 = 2
      ∧ ((2 : ℚ) ≠ 22 / ((10 : ℚ) - 0)) := by
  constructor
  · norm_num [compute_frequencies, trackLen]
  · norm_num

/-- C4 (amended): the emitted overall mutation rate equals the total variant
count (SNPs plus indels) divided by the effective reference length, where the
effective length is `Σ (end - start + 1)` over the bed rows when a region
restriction is active (each region contributing `end - start + 1`, not the
half-open `end - start`), and otherwise the accumulated non-N reference length;
`processSequence` adds exactly `length - (count of 'N')` of each processed
sequence to that accumulator, and `genModel` emits exactly this model when the
per-sequence loop succeeds. -/
theorem avg_mut_rate_amended (pf : List Char → ℚ) (reference : List (List Char × List Char))
    (variants : List Variant) (isBed : Bool) (myBed : List BedRow) (cacheExists : Bool)
    (cache : List (List Char × ℕ)) (trinucRefCount0 : List (List Char × ℕ))
    (st st0 st2 : GlobalState) (m : MutModel) (name refSequence : List Char)
    (snpRows indelRows : List Variant)
    (hok : assembleModel isBed myBed cacheExists cache trinucRefCount0 st = .ok m) :
    (m.avgMutRate = if isBed
        then ((st.snpCount + (st.indelCount.map (fun kv => kv.2)).sum : ℕ) : ℚ)
          / ((myBed.map (fun r => ((r.stop - r.start + 1 : ℤ) : ℚ))).sum)
        else ((st.snpCount + (st.indelCount.map (fun kv => kv.2)).sum : ℕ) : ℚ)
          / (st.totalReflen : ℚ))
    ∧ (processSequence pf st0 name refSequence snpRows indelRows = .ok st2 →
        st2.totalReflen = st0.totalReflen + (refSequence.length - refSequence.count 'N'))
    ∧ (mainLoop pf reference (preprocessVariants variants)
          (matchingChromosomes reference variants) initialState = .ok st →
        genModel pf reference variants isBed myBed cacheExists cache
          = assembleModel isBed myBed cacheExists cache
              (count_trinucleotides isBed cacheExists reference
                (matchingChromosomes reference variants) (matchingBedOf myBed variants)) st) := by
  refine ⟨?_, fun h => processSequence_ok_totalReflen pf st0 name refSequence snpRows
    indelRows st2 h, fun hml => by simp only [genModel, hml]⟩
  simp only [assembleModel] at hok
  by_cases h0 : st.snpCount + (st.indelCount.map (fun kv => kv.2)).sum = 0
  · rw [if_pos h0] at hok; simp at hok
  · rw [if_neg h0] at hok
    injection hok with h2
    subst h2
    simp only [compute_frequencies, trackLen]

/-- C4 witness: the amended theorem applied to a concrete state (3 SNPs, 2
deletions of length 1, non-N length 50) and bed `[0, 10)`: the emitted rate is
`5 / 11`. -/
theorem avg_mut_rate_amended_witness :
    (assembleModel true [⟨['c'], 0, 10⟩] false [] [] ⟨[], 3, [], [(-1, 2)], 50, [], []⟩
        = .ok ⟨(5 : ℚ) / 11, 3 / 5, [], [(-1, 1)], (backfillTables [] []).1,
               (backfillTables [] []).2, [], []⟩)
    ∧ ((⟨(5 : ℚ) / 11, 3 / 5, [], [(-1, 1)], (backfillTables [] []).1,
          (backfillTables [] []).2, [], []⟩ : MutModel).avgMutRate = if true
        then (((⟨[], 3, [], [(-1, 2)], 50, [], []⟩ : GlobalState).snpCount
            + ((⟨[], 3, [], [(-1, 2)], 50, [], []⟩ : GlobalState).indelCount.map
                (fun kv => kv.2)).sum : ℕ) : ℚ)
          / (([(⟨['c'], 0, 10⟩ : BedRow)].map
              (fun r => ((r.stop - r.start + 1 : ℤ) : ℚ))).sum)
        else (((⟨[], 3, [], [(-1, 2)], 50, [], []⟩ : GlobalState).snpCount
            + ((⟨[], 3, [], [(-1, 2)], 50, [], []⟩ : GlobalState).indelCount.map
                (fun kv => kv.2)).sum : ℕ) : ℚ)
          / (((⟨[], 3, [], [(-1, 2)], 50, [], []⟩ : GlobalState).totalReflen : ℕ) : ℚ)) := by
  have hok : assembleModel true [⟨['c'], 0, 10⟩] false [] [] ⟨[], 3, [], [(-1, 2)], 50, [], []⟩
      = .ok ⟨(5 : ℚ) / 11, 3 / 5, [], [(-1, 1)], (backfillTables [] []).1,
             (backfillTables [] []).2, [], []⟩ := by
    with_unfolding_all rfl
  exact ⟨hok, (avg_mut_rate_amended (fun _ => 0) [] [] true [⟨['c'], 0, 10⟩] false [] []
    ⟨[], 3, [], [(-1, 2)], 50, [], []⟩ initialState initialState _ [] [] [] [] hok).1⟩

/-! ### Lemmas for indel trimming and counting (claim C6) -/

theorem emptyToDash_trim_len (s : List Char) (hd : '-' ∉ s) (hn : s ≠ []) :
    (if (emptyToDash (s.drop 1)).contains '-' = true then 0
      else (emptyToDash (s.drop 1)).length) = s.length - 1 := by
  cases s with
  | nil => exact absurd rfl hn
  | cons c cs =>
    cases cs with
    | nil => simp [emptyToDash]
    | cons d ds =>
      have hd2 : '-' ∉ d :: ds := fun hm => hd (List.mem_cons_of_mem c hm)
      have hc : (d :: ds).contains '-' = false := by simpa using hd2
      simp [emptyToDash, hc]
      simpa [List.mem_cons, not_or] using hd2

/-- C6 counterexample: the record REF=`ATC`, ALT=`AGGTT` has alleles of different
length, so under the claim it would be counted as an indel of signed length +2;
the code trims it, then drops it as an unsupported complex substitution
(lines 368-374), so it reaches neither the indel loop nor the SNP loop and
nothing is counted. -/
theorem indel_count_counterexample :
    ("AGGTT".toList.length ≠ "ATC".toList.length)
    ∧ indelRowsFor (preprocessVariants [⟨['c'], 5, "ATC".toList, "AGGTT".toList, []⟩]) ['c'] = []
    ∧ snpRowsFor (preprocessVariants [⟨['c'], 5, "ATC".toList, "AGGTT".toList, []⟩]) ['c'] = [] :=
  ⟨by decide, by decide, by decide⟩

/-- C6 (amended): for every variant record over dash-free nonempty alleles whose
reference and alternate lengths differ, the first character is trimmed off both
alleles and an allele emptied by trimming becomes the placeholder `-`; then,
UNLESS the row is dropped as multi-alternate (a comma in the trimmed alternate)
or as an unsupported complex substitution (both trimmed alleles of length > 1
and dash-free), the record is counted as an indel with signed length equal to
trimmed alternate length minus trimmed reference length (a placeholder counting
as length 0) — so REF=`AT`, ALT=`A` yields signed length -1. -/
theorem indel_trim_count_amended (pf : List Char → ℚ) (v : Variant) (st : GlobalState)
    (vdat : List Vdat)
    (hlen : v.ref.length ≠ v.alt.length)
    (hrd : '-' ∉ v.ref) (had : '-' ∉ v.alt)
    (hrn : v.ref ≠ []) (han : v.alt ≠ []) :
    ((preprocessVariant v).2 = true)
    ∧ (preprocessVariant v).1.ref = emptyToDash (v.ref.drop 1)
    ∧ (preprocessVariant v).1.alt = emptyToDash (v.alt.drop 1)
    ∧ (processIndelRow pf (st, vdat) (preprocessVariant v).1
        = ({ st with
              indelCount := bumpBy st.indelCount
                (((v.alt.length - 1 : ℕ) : ℤ) - ((v.ref.length - 1 : ℕ) : ℤ)) 1 },
           vdat ++ [⟨v.pos, (preprocessVariant v).1.ref, (preprocessVariant v).1.ref,
             (preprocessVariant v).1.alt, pf v.info⟩]))
    ∧ (keepVariant (preprocessVariant v) = true →
        indelRowsFor (preprocessVariants [v]) v.chrom = [(preprocessVariant v).1])
    ∧ (keepVariant (preprocessVariant v) = false →
        indelRowsFor (preprocessVariants [v]) v.chrom = []) := by
  have hne : v.alt.length ≠ v.ref.length := Ne.symm hlen
  have hflag : (preprocessVariant v).2 = true := by
    simp only [preprocessVariant]
    exact decide_eq_true hne
  have href : (preprocessVariant v).1.ref = emptyToDash (v.ref.drop 1) := by
    simp only [preprocessVariant, if_pos hne]
  have halt : (preprocessVariant v).1.alt = emptyToDash (v.alt.drop 1) := by
    simp only [preprocessVariant, if_pos hne]
  refine ⟨hflag, href, halt, ?_, ?_, ?_⟩
  · have hR : (if (preprocessVariant v).1.ref.contains '-' = true then 0
        else (preprocessVariant v).1.ref.length) = v.ref.length - 1 := by
      rw [href]; exact emptyToDash_trim_len v.ref hrd hrn
    have hA : (if (preprocessVariant v).1.alt.contains '-' = true then 0
        else (preprocessVariant v).1.alt.length) = v.alt.length - 1 := by
      rw [halt]; exact emptyToDash_trim_len v.alt had han
    have hcond : v.ref.length - 1 ≠ v.alt.length - 1 := by
      have h1 : 1 ≤ v.ref.length := List.length_pos.mpr hrn
      have h2 : 1 ≤ v.alt.length := List.length_pos.mpr han
      omega
    simp only [processIndelRow, hR, hA, if_pos hcond]
    rfl
  · intro hkeep
    simp only [preprocessVariants, List.map_cons, List.map_nil]
    rw [List.filter_cons_of_pos hkeep, List.filter_nil]
    simp only [indelRowsFor, rowsFor]
    have hchrom : (preprocessVariant v).1.chrom = v.chrom := by
      simp only [preprocessVariant]
    rw [List.filter_cons_of_pos (by simp [hchrom]), List.filter_nil,
      List.filter_cons_of_pos hflag, List.filter_nil, List.map_cons, List.map_nil]
  · intro hkeep
    simp only [preprocessVariants, List.map_cons, List.map_nil]
    rw [List.filter_cons_of_neg (by simp [hkeep]), List.filter_nil]
    simp [indelRowsFor, rowsFor]

/-- C6 witness: the amended theorem applied to the claim's own example —
REF=`AT`, ALT=`A` — which is trimmed to REF=`T`, ALT=`-` and counted as an indel
of signed length `(1-1) - (2-1) = -1`. -/
theorem indel_trim_count_amended_witness :
    ("AT".toList.length ≠ "A".toList.length
      ∧ '-' ∉ "AT".toList ∧ '-' ∉ "A".toList
      ∧ "AT".toList ≠ ([] : List Char) ∧ "A".toList ≠ ([] : List Char))
    ∧ processIndelRow (fun _ => 0) (initialState, [])
        (preprocessVariant ⟨['c'], 7, "AT".toList, "A".toList, []⟩).1
      = ({ initialState with
            indelCount := bumpBy initialState.indelCount
              ((("A".toList.length - 1 : ℕ) : ℤ) - (("AT".toList.length - 1 : ℕ) : ℤ)) 1 },
         [] ++ [⟨7, (preprocessVariant ⟨['c'], 7, "AT".toList, "A".toList, []⟩).1.ref,
                (preprocessVariant ⟨['c'], 7, "AT".toList, "A".toList, []⟩).1.ref,
                (preprocessVariant ⟨['c'], 7, "AT".toList, "A".toList, []⟩).1.alt, 0⟩]) :=
  ⟨⟨by decide, by decide, by decide, by decide, by decide⟩,
   (indel_trim_count_amended (fun _ => 0) ⟨['c'], 7, "AT".toList, "A".toList, []⟩
     initialState [] (by decide) (by decide) (by decide) (by decide) (by decide)).2.2.2.1⟩

/-- C9: evidence for the cache/bed interaction bug.  With a bed restriction AND
an existing count-cache file, `count_trinucleotides` first counts inside the bed
region (`AAA ↦ 2` for the region `[0,4)` of `AAAA`), but `counts_from_file`
(line 513, reading branch of lines 103-109) then OVERWRITES the entry with the
cached value 5 — although its own docstring says it reads the file only "if we
didn't count ref trinucs before", and the bed branch of `count_trinucleotides`
(lines 130-131) says bed counts are used even when a cache file exists.  So
counting and cache loading are NOT mutually exclusive: the emitted count is 5,
not the region-scan value 2. -/
theorem bed_counts_overwritten_by_cache :
    alookup (count_trinucleotides true true [(['c'], "AAAA".toList)] [['c']] [⟨['c'], 0, 4⟩])
        "AAA".toList = some 2
    ∧ alookup (counts_from_file true [("AAA".toList, 5)]
        (count_trinucleotides true true [(['c'], "AAAA".toList)] [['c']] [⟨['c'], 0, 4⟩]))
        "AAA".toList = some 5
    ∧ (5 : ℕ) ≠ 2 :=
  ⟨by decide, by decide, by decide⟩

/-! ### Lemmas for the clustering (claim C7) -/

theorem clusterGo_join (delta : ℤ) (rest : List ℤ) :
    ∀ cur prev, (clusterGo delta cur prev rest).flatten = cur ++ rest := by
  induction rest with
  | nil => intro cur prev; simp [clusterGo]
  | cons item rest ih =>
    intro cur prev
    simp only [clusterGo]
    split
    · rw [ih]; simp
    · simp only [List.flatten_cons, ih]; simp

theorem cluster_list_join (l : List ℤ) : (cluster_list l 2000).flatten = l := by
  cases l with
  | nil => rfl
  | cons x rest =>
    show (clusterGo 2000 [x] x rest).flatten = x :: rest
    rw [clusterGo_join]; rfl

theorem clusterGo_ne_nil (delta : ℤ) (rest : List ℤ) :
    ∀ cur prev, cur ≠ [] → ∀ c ∈ clusterGo delta cur prev rest, c ≠ [] := by
  induction rest with
  | nil =>
    intro cur prev hcur c hc
    simp only [clusterGo, List.mem_singleton] at hc
    subst hc; exact hcur
  | cons item rest ih =>
    intro cur prev hcur c hc
    simp only [clusterGo] at hc
    split at hc
    · exact ih (cur ++ [item]) item (by simp) c hc
    · rcases List.mem_cons.mp hc with h | h
      · subst h; exact hcur
      · exact ih [item] item (by simp) c h

theorem clusterGo_within (delta : ℤ) (rest : List ℤ) :
    ∀ cur prev, List.Chain' (fun a b => b - a ≤ delta) cur → cur.getLast? = some prev →
    ∀ c ∈ clusterGo delta cur prev rest, List.Chain' (fun a b => b - a ≤ delta) c := by
  induction rest with
  | nil =>
    intro cur prev hch _ c hc
    simp only [clusterGo, List.mem_singleton] at hc
    subst hc; exact hch
  | cons item rest ih =>
    intro cur prev hch hlast c hc
    simp only [clusterGo] at hc
    split at hc
    · rename_i hle
      refine ih (cur ++ [item]) item ?_ (by simp [List.getLast?_concat]) c hc
      refine List.Chain'.append hch (List.chain'_singleton item) ?_
      intro x hx y hy
      rw [hlast] at hx
      simp only [Option.mem_def, Option.some.injEq] at hx hy
      subst hx
      cases hy
      exact hle
    · rcases List.mem_cons.mp hc with h | h
      · subst h; exact hch
      · exact ih [item] item (List.chain'_singleton item) rfl c h

theorem clusterGo_first (delta : ℤ) (rest : List ℤ) :
    ∀ cur prev, cur ≠ [] →
    ∃ c0 cs, clusterGo delta cur prev rest = c0 :: cs ∧ c0.head? = cur.head? := by
  induction rest with
  | nil => intro cur prev _; exact ⟨cur, [], rfl, rfl⟩
  | cons item rest ih =>
    intro cur prev hcur
    simp only [clusterGo]
    split
    · obtain ⟨c0, cs, heq, hh⟩ := ih (cur ++ [item]) item (by simp)
      refine ⟨c0, cs, heq, ?_⟩
      rw [hh]
      cases cur with
      | nil => exact absurd rfl hcur
      | cons a as => rfl
    · exact ⟨cur, clusterGo delta [item] item rest, rfl, rfl⟩

theorem clusterGo_boundary (delta : ℤ) (rest : List ℤ) :
    ∀ cur prev, cur ≠ [] → cur.getLast? = some prev →
    List.Chain' (fun c d => ∀ a b, c.getLast? = some a → d.head? = some b → delta < b - a)
      (clusterGo delta cur prev rest) := by
  induction rest with
  | nil => intro cur prev _ _; exact List.chain'_singleton cur
  | cons item rest ih =>
    intro cur prev hcur hlast
    simp only [clusterGo]
    split
    · exact ih (cur ++ [item]) item (by simp) (by simp [List.getLast?_concat])
    · rename_i hgt
      obtain ⟨c0, cs, heq, hh⟩ := clusterGo_first delta rest [item] item (by simp)
      rw [heq]
      refine List.chain'_cons.mpr ⟨?_, ?_⟩
      · intro a b ha hb
        rw [hlast] at ha
        injection ha with ha
        subst ha
        rw [hh] at hb
        injection hb with hb
        subst hb
        omega
      · have hc := ih [item] item (by simp) rfl
        rw [heq] at hc
        exact hc

/-- C7 counterexample: for the single-variant position list `[500]` in a
sequence of length 10000, the code computes `bi = int(-1500/1000.0)*1000 = -1000`
(truncation toward zero, no clamping) and `bf = 2000`, so the emitted region is
`(0, 2000)` (bounds clamped for the tuple only) with density `1/3000` — the
denominator uses the UNCLAMPED `bf - bi = 3000`.  The claim's padded interval
`[0, 2000]` has length 2000, i.e. density `1/2000 ≠ 1/3000`. -/
theorem cluster_density_counterexample :
    candidateRegions [500] 10000 = [((1 : ℚ) / 3000, 0, 2000)]
    ∧ ((1 : ℚ) / 3000 ≠ 1 / 2000) := by
  constructor
  · with_unfolding_all rfl
  · intro h
    exact absurd h (by with_unfolding_all decide)

/-- C7 (amended): per sequence, the greedy clustering of the position list starts
a new cluster exactly when the gap from the previous position exceeds 2000
(clusters concatenate back to the input, are nonempty, have all internal gaps
≤ 2000 and inter-cluster gaps > 2000), and each cluster is scored as
`size / (bf - bi)` where `bi = trunc((min - 2000)/1000)·1000` and
`bf = trunc((max + 2000)/1000)·1000` are NOT clamped in the denominator; only
the emitted interval bounds are clamped, to `max(0, bi)` and
`min(sequence length, bf)`. -/
theorem cluster_density_amended (l : List ℤ) (seqLen : ℤ) :
    ((cluster_list l 2000).flatten = l)
    ∧ (∀ c ∈ cluster_list l 2000, c ≠ [])
    ∧ (∀ c ∈ cluster_list l 2000, List.Chain' (fun a b => b - a ≤ 2000) c)
    ∧ List.Chain' (fun c d => ∀ a b, c.getLast? = some a → d.head? = some b → 2000 < b - a)
        (cluster_list l 2000)
    ∧ candidateRegions l seqLen = (cluster_list l 2000).map (fun c =>
        (((c.length : ℤ) : ℚ)
            / (((Int.tdiv (pyMax c + 2000) 1000 * 1000 : ℤ) : ℚ)
              - ((Int.tdiv (pyMin c - 2000) 1000 * 1000 : ℤ) : ℚ)),
          max 0 (Int.tdiv (pyMin c - 2000) 1000 * 1000),
          min seqLen (Int.tdiv (pyMax c + 2000) 1000 * 1000))) := by
  refine ⟨cluster_list_join l, ?_, ?_, ?_, ?_⟩
  · cases l with
    | nil => intro c hc; cases hc
    | cons x rest => exact clusterGo_ne_nil 2000 rest [x] x (by simp)
  · cases l with
    | nil => intro c hc; cases hc
    | cons x rest => exact clusterGo_within 2000 rest [x] x (List.chain'_singleton x) rfl
  · cases l with
    | nil => exact List.chain'_nil
    | cons x rest => exact clusterGo_boundary 2000 rest [x] x (by simp) rfl
  · simp only [candidateRegions, List.map_map]
    rfl

/-! ### Lemmas for the common-variant detector (claim C8) -/

theorem insertSorted_perm {α : Type} (le : α → α → Bool) (x : α) (l : List α) :
    (insertSorted le x l).Perm (x :: l) := by
  induction l with
  | nil => exact List.Perm.refl _
  | cons y ys ih =>
    simp only [insertSorted]
    split
    · exact List.Perm.refl _
    · exact (ih.cons y).trans (List.Perm.swap x y ys)

theorem pySorted_perm {α : Type} (le : α → α → Bool) (l : List α) :
    (pySorted le l).Perm l := by
  induction l with
  | nil => exact List.Perm.refl _
  | cons x xs ih => exact (insertSorted_perm le x (pySorted le xs)).trans (ih.cons x)

/-- C8: per reference sequence, the detector computes the 95th percentile of the
population frequencies of the gathered tuples (SNPs and indels together) and
emits exactly the tuples whose frequency is ≥ that percentile, tagged with the
sequence name; and, in a run without a region restriction (the loop body then
receives the `snp_df`/`indel_df` of lines 402-403 and 442, which is what this
development models — with a bed the program iterates the unmodelled row-index
join of lines 404-407 instead), a sequence with no variant rows gathers
nothing, contributes nothing to the global state beyond the non-N length tally,
and does not abort the run (the `continue` of lines 467-469). -/
theorem common_variant_detector (refName : List Char) (vdat : List Vdat)
    (x : List Char × ℤ × List Char × List Char × ℚ) (pf : List Char → ℚ)
    (st : GlobalState) (name refSequence : List Char) (pre : List (Variant × Bool)) :
    (x ∈ identifyCommon refName vdat ↔ ∃ k ∈ vdat,
        npPercentile 95 (vdat.map (fun n => n.freq)) ≤ k.freq
          ∧ x = (refName, k.pos, k.ref1, k.alt, k.freq))
    ∧ (rowsFor pre name = [] →
        processSequence pf st name refSequence (snpRowsFor pre name) (indelRowsFor pre name)
          = .ok { st with totalReflen := st.totalReflen
              + (refSequence.length - refSequence.count 'N') }) := by
  constructor
  · simp only [identifyCommon, List.mem_map, List.mem_filter]
    constructor
    · rintro ⟨k, ⟨hks, hkp⟩, rfl⟩
      exact ⟨k, (pySorted_perm vdatLe vdat).mem_iff.mp hks, by simpa using hkp, rfl⟩
    · rintro ⟨k, hk, hp, rfl⟩
      exact ⟨k, ⟨(pySorted_perm vdatLe vdat).mem_iff.mpr hk, by simpa using hp⟩, rfl⟩
  · intro h
    have h1 : snpRowsFor pre name = [] := by simp [snpRowsFor, h]
    have h2 : indelRowsFor pre name = [] := by simp [indelRowsFor, h]
    rw [h1, h2]
    simp [processSequence, snpLoop, indelLoop]

/-- C8 witness: the theorem applied at a concrete sequence with one gathered
variant of frequency 1/2 — it is emitted (the 95th percentile of a singleton is
the element itself), and a chromosome with no variant rows leaves the state
unchanged except for the length tally, without aborting. -/
theorem common_variant_detector_witness :
    ((['c'], (1 : ℤ), ['A'], ['T'], (1 : ℚ) / 2)
        ∈ identifyCommon ['c'] [⟨1, ['A'], ['A'], ['T'], 1 / 2⟩] ↔ ∃ k ∈ [(⟨1, ['A'], ['A'], ['T'], 1 / 2⟩ : Vdat)],
        npPercentile 95 ([(⟨1, ['A'], ['A'], ['T'], 1 / 2⟩ : Vdat)].map (fun n => n.freq)) ≤ k.freq
          ∧ (((['c'], (1 : ℤ), ['A'], ['T'], (1 : ℚ) / 2) : List Char × ℤ × List Char × List Char × ℚ))
            = (['c'], k.pos, k.ref1, k.alt, k.freq))
    ∧ (rowsFor [] ['c'] = []
        ∧ processSequence (fun _ => 0) initialState ['c'] "AANA".toList
            (snpRowsFor [] ['c']) (indelRowsFor [] ['c'])
          = .ok { initialState with totalReflen := initialState.totalReflen
              + ("AANA".toList.length - "AANA".toList.count 'N') }) :=
  ⟨(common_variant_detector ['c'] [⟨1, ['A'], ['A'], ['T'], 1 / 2⟩]
      (['c'], 1, ['A'], ['T'], 1 / 2) (fun _ => 0) initialState ['c'] "AANA".toList []).1,
   ⟨rfl, (common_variant_detector ['c'] [⟨1, ['A'], ['A'], ['T'], 1 / 2⟩]
      (['c'], 1, ['A'], ['T'], 1 / 2) (fun _ => 0) initialState ['c'] "AANA".toList []).2 rfl⟩⟩

/-! ### Lemmas for the backfill (claims C2 and C3) -/

theorem zeroFill_some {κ : Type} [DecidableEq κ] (keys : List κ) :
    ∀ (m : List (κ × ℚ)) (k : κ) (v : ℚ), alookup m k = some v →
    alookup (zeroFill m keys) k = some v := by
  induction keys with
  | nil => intro m k v h; exact h
  | cons k2 ks ih =>
    intro m k v h
    simp only [zeroFill, List.foldl_cons]
    split
    · exact ih _ k v (alookup_some_append m [(k2, 0)] k v h)
    · exact ih _ k v h

theorem zeroFill_isSome {κ : Type} [DecidableEq κ] (keys : List κ) :
    ∀ (m : List (κ × ℚ)) (k : κ), k ∈ keys →
    (alookup (zeroFill m keys) k).isSome := by
  induction keys with
  | nil => intro m k h; cases h
  | cons k2 ks ih =>
    intro m k hk
    simp only [zeroFill, List.foldl_cons]
    rcases List.mem_cons.mp hk with h | h
    · subst h
      split
      · rename_i hnone
        have h2 : alookup (m ++ [(k, 0)]) k = some 0 := by
          rw [alookup_append, hnone]
          simp [alookup]
        have h3 := zeroFill_some ks (m ++ [(k, 0)]) k 0 h2
        simp only [zeroFill] at h3
        rw [h3]
        rfl
      · rename_i hsome
        cases ha : alookup m k with
        | none => exact absurd ha hsome
        | some v =>
          have h3 := zeroFill_some ks m k v ha
          simp only [zeroFill] at h3
          rw [h3]
          rfl
    · split
      · exact ih _ k h
      · exact ih _ k h

theorem zeroFill_none_or_zero {κ : Type} [DecidableEq κ] (keys : List κ) :
    ∀ (m : List (κ × ℚ)) (k : κ), alookup m k = none →
    alookup (zeroFill m keys) k = none ∨ alookup (zeroFill m keys) k = some 0 := by
  induction keys with
  | nil => intro m k h; exact Or.inl h
  | cons k2 ks ih =>
    intro m k h
    simp only [zeroFill, List.foldl_cons]
    split
    · by_cases hk : k2 = k
      · subst hk
        have h2 : alookup (m ++ [(k2, 0)]) k2 = some 0 := by
          rw [alookup_append, h]
          simp [alookup]
        exact Or.inr (zeroFill_some ks _ k2 0 h2)
      · have h2 : alookup (m ++ [(k2, 0)]) k = none := by
          rw [alookup_append, h]
          simp [alookup, hk]
        exact ih _ k h2
    · exact ih _ k h

theorem backfillFold_mut_some (ts : List (List Char)) :
    ∀ (st : (List (List Char × ℚ)) × (List ((List Char × List Char) × ℚ))) (k : List Char)
      (v : ℚ), alookup st.1 k = some v → alookup ((ts.foldl backfillStep st).1) k = some v := by
  induction ts with
  | nil => intro st k v h; exact h
  | cons t ts ih =>
    intro st k v h
    exact ih _ k v (zeroFill_some [t] st.1 k v h)

theorem backfillFold_trans_some (ts : List (List Char)) :
    ∀ (st : (List (List Char × ℚ)) × (List ((List Char × List Char) × ℚ)))
      (k : List Char × List Char) (v : ℚ),
      alookup st.2 k = some v → alookup ((ts.foldl backfillStep st).2) k = some v := by
  induction ts with
  | nil => intro st k v h; exact h
  | cons t ts ih =>
    intro st k v h
    exact ih _ k v (zeroFill_some ((trinucMut t).map (fun t2 => (t, t2))) st.2 k v h)

theorem backfillFold_mut_isSome (ts : List (List Char)) :
    ∀ (st : (List (List Char × ℚ)) × (List ((List Char × List Char) × ℚ))) (t : List Char),
      t ∈ ts → (alookup ((ts.foldl backfillStep st).1) t).isSome := by
  induction ts with
  | nil => intro st t h; cases h
  | cons t0 ts ih =>
    intro st t ht
    rcases List.mem_cons.mp ht with h | h
    · subst h
      have h1 : (alookup ((backfillStep st t).1) t).isSome :=
        zeroFill_isSome [t] st.1 t (by simp)
      cases ha : alookup ((backfillStep st t).1) t with
      | none => rw [ha] at h1; cases h1
      | some v =>
        simp only [List.foldl_cons]
        rw [backfillFold_mut_some ts (backfillStep st t) t v ha]
        rfl
    · exact ih _ t h

theorem backfillFold_trans_isSome (ts : List (List Char)) :
    ∀ (st : (List (List Char × ℚ)) × (List ((List Char × List Char) × ℚ)))
      (t t2 : List Char), t ∈ ts → t2 ∈ trinucMut t →
      (alookup ((ts.foldl backfillStep st).2) (t, t2)).isSome := by
  induction ts with
  | nil => intro st t t2 h; cases h
  | cons t0 ts ih =>
    intro st t t2 ht ht2
    rcases List.mem_cons.mp ht with h | h
    · subst h
      have h1 : (alookup ((backfillStep st t).2) (t, t2)).isSome :=
        zeroFill_isSome ((trinucMut t).map (fun x => (t, x))) st.2 (t, t2)
          (List.mem_map.mpr ⟨t2, ht2, rfl⟩)
      cases ha : alookup ((backfillStep st t).2) (t, t2) with
      | none => rw [ha] at h1; cases h1
      | some v =>
        simp only [List.foldl_cons]
        rw [backfillFold_trans_some ts (backfillStep st t) (t, t2) v ha]
        rfl
    · exact ih _ t t2 h ht2

theorem backfillFold_mut_none_or_zero (ts : List (List Char)) :
    ∀ (st : (List (List Char × ℚ)) × (List ((List Char × List Char) × ℚ))) (k : List Char),
      alookup st.1 k = none → alookup ((ts.foldl backfillStep st).1) k = none
        ∨ alookup ((ts.foldl backfillStep st).1) k = some 0 := by
  induction ts with
  | nil => intro st k h; exact Or.inl h
  | cons t0 ts ih =>
    intro st k h
    simp only [List.foldl_cons]
    rcases zeroFill_none_or_zero [t0] st.1 k h with h2 | h2
    · exact ih (backfillStep st t0) k h2
    · exact Or.inr (backfillFold_mut_some ts (backfillStep st t0) k 0 h2)

theorem backfillFold_trans_none_or_zero (ts : List (List Char)) :
    ∀ (st : (List (List Char × ℚ)) × (List ((List Char × List Char) × ℚ)))
      (k : List Char × List Char),
      alookup st.2 k = none → alookup ((ts.foldl backfillStep st).2) k = none
        ∨ alookup ((ts.foldl backfillStep st).2) k = some 0 := by
  induction ts with
  | nil => intro st k h; exact Or.inl h
  | cons t0 ts ih =>
    intro st k h
    simp only [List.foldl_cons]
    rcases zeroFill_none_or_zero ((trinucMut t0).map (fun x => (t0, x))) st.2 k h with h2 | h2
    · exact ih (backfillStep st t0) k h2
    · exact Or.inr (backfillFold_trans_some ts (backfillStep st t0) k 0 h2)

theorem mem_VALID_TRINUC (t : List Char) :
    t ∈ VALID_TRINUC ↔ ∃ a ∈ VALID_NUCL, ∃ b ∈ VALID_NUCL, ∃ c ∈ VALID_NUCL, t = [a, b, c] := by
  simp only [VALID_TRINUC, List.mem_flatMap, List.mem_map]
  constructor
  · rintro ⟨a, ha, b, hb, c, hc, rfl⟩
    exact ⟨a, ha, b, hb, c, hc, rfl⟩
  · rintro ⟨a, ha, b, hb, c, hc, rfl⟩
    exact ⟨a, ha, b, hb, c, hc, rfl⟩

theorem mem_trinucMut (t t2 : List Char) (ht2 : t2 ∈ VALID_TRINUC)
    (hdiff : ∃ a b b2 c, t = [a, b, c] ∧ t2 = [a, b2, c] ∧ b ≠ b2) :
    t2 ∈ trinucMut t := by
  obtain ⟨a, b, b2, c, rfl, rfl, hne⟩ := hdiff
  obtain ⟨a2, _, b3, hb3, c2, _, heq⟩ := (mem_VALID_TRINUC _).mp ht2
  have hb2 : b2 ∈ VALID_NUCL := by
    injection heq with h1 h2
    injection h2 with h2 h3
    subst h2; exact hb3
  simp only [trinucMut, List.mem_map, List.mem_filter]
  exact ⟨b2, ⟨hb2, by simpa using Ne.symm hne⟩, rfl⟩

theorem backfillTables_mut_some (mp : List (List Char × ℚ))
    (tp : List ((List Char × List Char) × ℚ)) (k : List Char) (v : ℚ)
    (h : alookup mp k = some v) : alookup (backfillTables mp tp).1 k = some v :=
  backfillFold_mut_some VALID_TRINUC (mp, tp) k v h

theorem backfillTables_trans_some (mp : List (List Char × ℚ))
    (tp : List ((List Char × List Char) × ℚ)) (k : List Char × List Char) (v : ℚ)
    (h : alookup tp k = some v) : alookup (backfillTables mp tp).2 k = some v :=
  backfillFold_trans_some VALID_TRINUC (mp, tp) k v h

theorem backfillTables_mut_isSome (mp : List (List Char × ℚ))
    (tp : List ((List Char × List Char) × ℚ)) (t : List Char) (ht : t ∈ VALID_TRINUC) :
    (alookup (backfillTables mp tp).1 t).isSome :=
  backfillFold_mut_isSome VALID_TRINUC (mp, tp) t ht

theorem backfillTables_trans_isSome (mp : List (List Char × ℚ))
    (tp : List ((List Char × List Char) × ℚ)) (t t2 : List Char) (ht : t ∈ VALID_TRINUC)
    (ht2 : t2 ∈ trinucMut t) : (alookup (backfillTables mp tp).2 (t, t2)).isSome :=
  backfillFold_trans_isSome VALID_TRINUC (mp, tp) t t2 ht ht2

theorem backfillTables_mut_none_or_zero (mp : List (List Char × ℚ))
    (tp : List ((List Char × List Char) × ℚ)) (k : List Char) (h : alookup mp k = none) :
    alookup (backfillTables mp tp).1 k = none ∨ alookup (backfillTables mp tp).1 k = some 0 :=
  backfillFold_mut_none_or_zero VALID_TRINUC (mp, tp) k h

theorem backfillTables_trans_none_or_zero (mp : List (List Char × ℚ))
    (tp : List ((List Char × List Char) × ℚ)) (k : List Char × List Char)
    (h : alookup tp k = none) :
    alookup (backfillTables mp tp).2 k = none ∨ alookup (backfillTables mp tp).2 k = some 0 :=
  backfillFold_trans_none_or_zero VALID_TRINUC (mp, tp) k h

/-! ### Lemmas about `computeTrinucProbs` (claim C3) -/

theorem alookup_some_mem {κ ν : Type} [DecidableEq κ] (l : List (κ × ν)) (k : κ) (v : ν)
    (h : alookup l k = some v) : k ∈ l.map (fun e => e.1) := by
  induction l with
  | nil => cases h
  | cons e rest ih =>
    simp only [alookup] at h
    split at h
    · rename_i he
      subst he
      simp
    · simpa using Or.inr (ih h)

theorem alookup_not_mem {κ ν : Type} [DecidableEq κ] (l : List (κ × ν)) (k : κ)
    (h : k ∉ l.map (fun e => e.1)) : alookup l k = none := by
  cases ha : alookup l k with
  | none => rfl
  | some v => exact absurd (alookup_some_mem l k v ha) h

theorem alookup_mem_nodup {κ ν : Type} [DecidableEq κ] (l : List (κ × ν))
    (hnd : (l.map (fun e => e.1)).Nodup) (e : κ × ν) (he : e ∈ l) :
    alookup l e.1 = some e.2 := by
  induction l with
  | nil => cases he
  | cons e0 rest ih =>
    rw [List.map_cons, List.nodup_cons] at hnd
    rcases List.mem_cons.mp he with h | h
    · subst h
      simp [alookup]
    · have hne : e0.1 ≠ e.1 := by
        intro hq
        exact hnd.1 (hq ▸ List.mem_map_of_mem (fun x => x.1) h)
      simp only [alookup, if_neg hne]
      exact ih hnd.2 h

theorem alookup_transEntries_eq (tc : List ((List Char × List Char) × ℕ)) (t : List Char)
    (mc : ℕ) (t2 : List Char) :
    alookup (transEntries tc t mc) (t, t2)
      = Option.map (fun c : ℕ => (c : ℚ) / (mc : ℚ)) (alookup tc (t, t2)) := by
  induction tc with
  | nil => rfl
  | cons e l ih =>
    by_cases h : e.1.1 = t
    · have hstep : transEntries (e :: l) t mc
          = (e.1, (e.2 : ℚ) / (mc : ℚ)) :: transEntries l t mc := by
        simp [transEntries, List.filterMap_cons, h]
      rw [hstep]
      by_cases h2 : e.1 = (t, t2)
      · simp only [alookup, if_pos h2]
        rfl
      · simp only [alookup, if_neg h2]
        exact ih
    · have hstep : transEntries (e :: l) t mc = transEntries l t mc := by
        simp [transEntries, List.filterMap_cons, h]
      have hne : e.1 ≠ (t, t2) := by
        intro hq
        exact h (by rw [hq])
      rw [hstep, ih]
      simp only [alookup, if_neg hne]

theorem alookup_transEntries_ne (tc : List ((List Char × List Char) × ℕ)) (t0 : List Char)
    (mc : ℕ) (t t2 : List Char) (h : t ≠ t0) :
    alookup (transEntries tc t0 mc) (t, t2) = none := by
  induction tc with
  | nil => rfl
  | cons e l ih =>
    by_cases he : e.1.1 = t0
    · have hstep : transEntries (e :: l) t0 mc
          = (e.1, (e.2 : ℚ) / (mc : ℚ)) :: transEntries l t0 mc := by
        simp [transEntries, List.filterMap_cons, he]
      have hne : e.1 ≠ (t, t2) := by
        intro hq
        rw [hq] at he
        exact h (by rw [← he])
      rw [hstep]
      simp only [alookup, if_neg hne]
      exact ih
    · have hstep : transEntries (e :: l) t0 mc = transEntries l t0 mc := by
        simp [transEntries, List.filterMap_cons, he]
      rw [hstep]
      exact ih

theorem computeTrinucProbs_mut_lookup (rc : List (List Char × ℕ))
    (tc : List ((List Char × List Char) × ℕ)) (k : List Char) :
    alookup (computeTrinucProbs rc tc).1 k
      = Option.map (fun n : ℕ => ((outgoingCount tc k : ℕ) : ℚ) / (n : ℚ)) (alookup rc k) := by
  induction rc with
  | nil => rfl
  | cons e rest ih =>
    obtain ⟨t0, n0⟩ := e
    simp only [computeTrinucProbs]
    by_cases h : t0 = k
    · subst h
      simp only [alookup, if_pos rfl]
      rfl
    · have h2 : ((t0, n0) : List Char × ℕ).1 ≠ k := h
      have h3 : ((t0, ((outgoingCount tc t0 : ℕ) : ℚ) / (n0 : ℚ)) : List Char × ℚ).1 ≠ k := h
      simp only [alookup, if_neg h2, if_neg h3]
      exact ih

theorem computeTrinucProbs_trans_notin (rc : List (List Char × ℕ))
    (tc : List ((List Char × List Char) × ℕ)) (t t2 : List Char)
    (h : t ∉ rc.map (fun e => e.1)) :
    alookup (computeTrinucProbs rc tc).2 (t, t2) = none := by
  induction rc with
  | nil => rfl
  | cons e rest ih =>
    obtain ⟨t0, n0⟩ := e
    have hne : t ≠ t0 := by
      intro hq
      exact h (by simp [hq])
    have hrest : t ∉ rest.map (fun e => e.1) := by
      intro hq
      exact h (by simp; exact Or.inr (by simpa using hq))
    simp only [computeTrinucProbs]
    rw [alookup_append, alookup_transEntries_ne tc t0 _ t t2 hne, ih hrest]
    rfl

theorem computeTrinucProbs_trans_lookup (rc : List (List Char × ℕ))
    (tc : List ((List Char × List Char) × ℕ)) (t t2 : List Char)
    (hnd : (rc.map (fun e => e.1)).Nodup) (hmem : t ∈ rc.map (fun e => e.1)) :
    alookup (computeTrinucProbs rc tc).2 (t, t2)
      = Option.map (fun c : ℕ => (c : ℚ) / ((outgoingCount tc t : ℕ) : ℚ))
          (alookup tc (t, t2)) := by
  induction rc with
  | nil => cases hmem
  | cons e rest ih =>
    obtain ⟨t0, n0⟩ := e
    rw [List.map_cons, List.nodup_cons] at hnd
    rw [List.map_cons] at hmem
    simp only [computeTrinucProbs]
    rw [alookup_append]
    by_cases h : t = t0
    · subst h
      rw [alookup_transEntries_eq tc t _ t2]
      cases htc : alookup tc (t, t2) with
      | some c => rfl
      | none =>
        rw [computeTrinucProbs_trans_notin rest tc t t2 hnd.1]
        rfl
    · rw [alookup_transEntries_ne tc t0 _ t t2 h]
      have hmem2 : t ∈ rest.map (fun e => e.1) := by
        rcases List.mem_cons.mp hmem with hq | hq
        · exact absurd hq h
        · exact hq
      rw [Option.none_or]
      exact ih hnd.2 hmem2

theorem outgoingCount_cons (e : (List Char × List Char) × ℕ)
    (l : List ((List Char × List Char) × ℕ)) (t : List Char) :
    outgoingCount (e :: l) t = (if e.1.1 = t then e.2 else 0) + outgoingCount l t := by
  simp only [outgoingCount, List.filter_cons]
  by_cases h : e.1.1 = t
  · simp [h]
  · simp [h]

theorem sum_if_single {α : Type} [DecidableEq α] (K : List α) (b : α) (v : ℕ) (g : α → ℕ)
    (hnd : K.Nodup) (hb : b ∈ K) (hgb : g b = 0) :
    (K.map (fun x => if b = x then v else g x)).sum = v + (K.map g).sum := by
  induction K with
  | nil => cases hb
  | cons k ks ih =>
    rw [List.nodup_cons] at hnd
    by_cases h : b = k
    · subst h
      have hcongr : ks.map (fun x => if b = x then v else g x) = ks.map g := by
        apply List.map_congr_left
        intro x hx
        have : b ≠ x := fun hq => hnd.1 (hq ▸ hx)
        rw [if_neg this]
      rw [List.map_cons, if_pos rfl, List.map_cons, hcongr, List.sum_cons, List.sum_cons, hgb]
      omega
    · have hb2 : b ∈ ks := by
        rcases List.mem_cons.mp hb with hq | hq
        · exact absurd hq h
        · exact hq
      rw [List.map_cons, if_neg h, List.map_cons, List.sum_cons, List.sum_cons,
        ih hnd.2 hb2]
      omega

theorem trinucMut_nodup (t : List Char) : (trinucMut t).Nodup := by
  cases t with
  | nil => exact List.nodup_nil
  | cons a t1 =>
    cases t1 with
    | nil => exact List.nodup_nil
    | cons b t2 =>
      cases t2 with
      | nil => exact List.nodup_nil
      | cons c t3 =>
        cases t3 with
        | nil =>
          refine List.Nodup.map ?_ (List.Nodup.filter _ (by decide))
          intro x y hxy
          simp only [List.cons.injEq] at hxy
          exact hxy.2.1
        | cons d t4 => exact List.nodup_nil

theorem sum_lookup_eq_outgoing (t : List Char) (tc : List ((List Char × List Char) × ℕ))
    (hnd : (tc.map (fun e => e.1)).Nodup)
    (hshape : ∀ e ∈ tc, e.1.2 ∈ trinucMut e.1.1) :
    ((trinucMut t).map (fun t2 => (alookup tc (t, t2)).getD 0)).sum = outgoingCount tc t := by
  induction tc with
  | nil =>
    have h0 : (trinucMut t).map (fun t2 => (alookup ([] : List ((List Char × List Char) × ℕ))
        (t, t2)).getD 0) = (trinucMut t).map (fun _ => 0) := rfl
    rw [h0]
    simp [outgoingCount]
  | cons e l ih =>
    obtain ⟨⟨a, b⟩, v⟩ := e
    rw [List.map_cons, List.nodup_cons] at hnd
    have hshape2 : ∀ e ∈ l, e.1.2 ∈ trinucMut e.1.1 :=
      fun e he => hshape e (List.mem_cons_of_mem _ he)
    rw [outgoingCount_cons]
    by_cases h : a = t
    · subst h
      have hb : b ∈ trinucMut a := by
        simpa using hshape ((a, b), v) (List.mem_cons_self _ _)
      have hbl : alookup l (a, b) = none := alookup_not_mem l (a, b) hnd.1
      have hmap : (trinucMut a).map (fun t2 => (alookup (((a, b), v) :: l) (a, t2)).getD 0)
          = (trinucMut a).map (fun t2 => if b = t2 then v else (alookup l (a, t2)).getD 0) := by
        apply List.map_congr_left
        intro t2 _
        simp only [alookup]
        by_cases h2 : b = t2
        · subst h2
          rw [if_pos rfl, if_pos rfl]
          rfl
        · have hne : ((a, b) : List Char × List Char) ≠ (a, t2) := by
            intro hq
            injection hq with hq1 hq2
            exact h2 hq2
          rw [if_neg hne, if_neg h2]
      rw [hmap, sum_if_single (trinucMut a) b v _ (trinucMut_nodup a) hb (by rw [hbl]; rfl),
        ih hnd.2 hshape2]
      simp
    · have hmap : (trinucMut t).map (fun t2 => (alookup (((a, b), v) :: l) (t, t2)).getD 0)
          = (trinucMut t).map (fun t2 => (alookup l (t, t2)).getD 0) := by
        apply List.map_congr_left
        intro t2 _
        simp only [alookup]
        have hne : ((a, b) : List Char × List Char) ≠ (t, t2) := by
          intro hq
          injection hq with hq1 hq2
          exact h hq1
        rw [if_neg hne]
      rw [hmap, ih hnd.2 hshape2, if_neg h]
      omega

set_option maxRecDepth 8000 in
theorem assembleModel_ok_tables (isBed : Bool) (myBed : List BedRow) (cacheExists : Bool)
    (cache : List (List Char × ℕ)) (tc0 : List (List Char × ℕ)) (st : GlobalState)
    (m : MutModel) (hok : assembleModel isBed myBed cacheExists cache tc0 st = .ok m) :
    m.trinucMutProb = (backfillTables
        (computeTrinucProbs (counts_from_file cacheExists cache tc0) st.trinucTransitionCount).1
        (computeTrinucProbs (counts_from_file cacheExists cache tc0) st.trinucTransitionCount).2).1
    ∧ m.trinucTransProbs = (backfillTables
        (computeTrinucProbs (counts_from_file cacheExists cache tc0) st.trinucTransitionCount).1
        (computeTrinucProbs (counts_from_file cacheExists cache tc0)
          st.trinucTransitionCount).2).2 := by
  simp only [assembleModel] at hok
  by_cases h0 : st.snpCount + ((st.indelCount.map (fun kv => kv.2)).sum) = 0
  · rw [if_pos h0] at hok
    cases hok
  · rw [if_neg h0] at hok
    injection hok with h5
    subst h5
    constructor
    · dsimp only []
    · dsimp only []

set_option maxRecDepth 8000 in
/-- C2: for every valid trinucleotide `t` the emitted mutation-probability table
contains an entry for `t`, and for every pair `(t, t2)` of valid trinucleotides
differing only in the center base the emitted transition-probability table
contains an entry for `(t, t2)`; a context or pair with no entry before the
backfill (i.e. never observed in the input data) is present with probability 0.
The final conjunct states the presence facts for the tables of any model a run
actually emits. -/
theorem backfill_completeness
    (mp : List (List Char × ℚ)) (tp : List ((List Char × List Char) × ℚ))
    (pf : List Char → ℚ) (reference : List (List Char × List Char))
    (variants : List Variant) (isBed : Bool) (myBed : List BedRow) (cacheExists : Bool)
    (cache : List (List Char × ℕ)) (m : MutModel) (t t2 : List Char)
    (ht : t ∈ VALID_TRINUC) (ht2 : t2 ∈ VALID_TRINUC)
    (hdiff : ∃ a b b2 c, t = [a, b, c] ∧ t2 = [a, b2, c] ∧ b ≠ b2) :
    ((alookup (backfillTables mp tp).1 t).isSome
      ∧ (alookup mp t = none → alookup (backfillTables mp tp).1 t = some 0))
    ∧ ((alookup (backfillTables mp tp).2 (t, t2)).isSome
      ∧ (alookup tp (t, t2) = none → alookup (backfillTables mp tp).2 (t, t2) = some 0))
    ∧ (genModel pf reference variants isBed myBed cacheExists cache = .ok m →
        (alookup m.trinucMutProb t).isSome ∧ (alookup m.trinucTransProbs (t, t2)).isSome) := by
  have ht2m : t2 ∈ trinucMut t := mem_trinucMut t t2 ht2 hdiff
  refine ⟨⟨backfillTables_mut_isSome mp tp t ht, fun hn => ?_⟩,
    ⟨backfillTables_trans_isSome mp tp t t2 ht ht2m, fun hn => ?_⟩, fun hok => ?_⟩
  · rcases backfillTables_mut_none_or_zero mp tp t hn with h | h
    · have h2 := backfillTables_mut_isSome mp tp t ht
      rw [h] at h2
      cases h2
    · exact h
  · rcases backfillTables_trans_none_or_zero mp tp (t, t2) hn with h | h
    · have h2 := backfillTables_trans_isSome mp tp t t2 ht ht2m
      rw [h] at h2
      cases h2
    · exact h
  · cases hml : mainLoop pf reference (preprocessVariants variants)
        (matchingChromosomes reference variants) initialState with
    | error e =>
      have hgen : genModel pf reference variants isBed myBed cacheExists cache
          = .error e := by
        simp only [genModel, hml]
      rw [hgen] at hok
      cases hok
    | ok st =>
      have hgen : genModel pf reference variants isBed myBed cacheExists cache
          = assembleModel isBed myBed cacheExists cache
              (count_trinucleotides isBed cacheExists reference
                (matchingChromosomes reference variants) (matchingBedOf myBed variants)) st := by
        simp only [genModel, hml]
      rw [hgen] at hok
      obtain ⟨hm1, hm2⟩ := assembleModel_ok_tables _ _ _ _ _ _ _ hok
      rw [hm1, hm2]
      exact ⟨backfillTables_mut_isSome _ _ t ht,
             backfillTables_trans_isSome _ _ t t2 ht ht2m⟩

/-- C2 witness: the theorem applied to the concrete pair `AAA` / `ACA` with empty
pre-backfill tables — the backfilled tables contain the context and the pair,
with probability 0. -/
theorem backfill_completeness_witness :
    ("AAA".toList ∈ VALID_TRINUC ∧ "ACA".toList ∈ VALID_TRINUC)
    ∧ ((alookup (backfillTables [] []).1 "AAA".toList).isSome
        ∧ (alookup ([] : List (List Char × ℚ)) "AAA".toList = none →
            alookup (backfillTables [] []).1 "AAA".toList = some 0)) :=
  ⟨⟨by decide, by decide⟩,
   (backfill_completeness [] [] (fun _ => 0) [] [] false [] false []
     ⟨0, 0, [], [], [], [], [], []⟩ "AAA".toList "ACA".toList (by decide) (by decide)
     ⟨'A', 'A', 'C', 'A', rfl, rfl, by decide⟩).1⟩

set_option maxRecDepth 8000 in
/-- C3: for every valid trinucleotide `t` whose emitted mutation probability is
nonzero, the emitted transition probabilities for the single-center-base
substitutions of `t` sum to exactly 1 (exact rational arithmetic, hence within
any floating-point tolerance), and every observed pair's probability equals its
transition count divided by the total outgoing transition count from `t`.
Hypotheses: the count dictionaries have unique keys (a Python dict invariant)
and every observed transition key is a genuine center-base substitution (true
of any VCF record whose ALT differs from its REF). -/
theorem transition_probs_sum_to_one (refCount : List (List Char × ℕ))
    (transCount : List ((List Char × List Char) × ℕ)) (t : List Char) (p : ℚ)
    (e : (List Char × List Char) × ℕ)
    (hnd1 : (refCount.map (fun x => x.1)).Nodup)
    (hnd2 : (transCount.map (fun x => x.1)).Nodup)
    (hshape : ∀ x ∈ transCount, x.1.2 ∈ trinucMut x.1.1)
    (ht : t ∈ VALID_TRINUC)
    (hmp : alookup (backfillTables (computeTrinucProbs refCount transCount).1
      (computeTrinucProbs refCount transCount).2).1 t = some p)
    (hp : p ≠ 0) :
    (((trinucMut t).map (fun t2 =>
        (alookup (backfillTables (computeTrinucProbs refCount transCount).1
          (computeTrinucProbs refCount transCount).2).2 (t, t2)).getD 0)).sum = 1)
    ∧ (e ∈ transCount → e.1.1 = t →
        alookup (backfillTables (computeTrinucProbs refCount transCount).1
          (computeTrinucProbs refCount transCount).2).2 e.1
          = some ((e.2 : ℚ) / ((outgoingCount transCount t : ℕ) : ℚ))) := by
  have hrc : ∃ n0 : ℕ, alookup refCount t = some n0 := by
    cases hrc0 : alookup refCount t with
    | some n0 => exact ⟨n0, rfl⟩
    | none =>
      exfalso
      have hmnone : alookup (computeTrinucProbs refCount transCount).1 t = none := by
        rw [computeTrinucProbs_mut_lookup, hrc0]
        rfl
      rcases backfillTables_mut_none_or_zero _ _ t hmnone with h | h
      · rw [hmp] at h
        cases h
      · rw [hmp] at h
        injection h with h2
        exact hp h2
  obtain ⟨n0, hn0⟩ := hrc
  have htmem : t ∈ refCount.map (fun x => x.1) := alookup_some_mem refCount t n0 hn0
  have hmplookup : alookup (computeTrinucProbs refCount transCount).1 t
      = some (((outgoingCount transCount t : ℕ) : ℚ) / (n0 : ℚ)) := by
    rw [computeTrinucProbs_mut_lookup, hn0]
    rfl
  have hfinal := backfillTables_mut_some _ (computeTrinucProbs refCount transCount).2 t _ hmplookup
  rw [hmp] at hfinal
  injection hfinal with hpval
  have hmcQ : ((outgoingCount transCount t : ℕ) : ℚ) ≠ 0 := by
    intro h0
    apply hp
    rw [hpval, h0, zero_div]
  constructor
  · have hper : ∀ t2 ∈ trinucMut t,
        (alookup (backfillTables (computeTrinucProbs refCount transCount).1
          (computeTrinucProbs refCount transCount).2).2 (t, t2)).getD 0
          = (((alookup transCount (t, t2)).getD 0 : ℕ) : ℚ)
            / ((outgoingCount transCount t : ℕ) : ℚ) := by
      intro t2 ht2
      cases htc : alookup transCount (t, t2) with
      | some c =>
        have h2 : alookup (computeTrinucProbs refCount transCount).2 (t, t2)
            = some ((c : ℚ) / ((outgoingCount transCount t : ℕ) : ℚ)) := by
          rw [computeTrinucProbs_trans_lookup refCount transCount t t2 hnd1 htmem, htc]
          rfl
        rw [backfillTables_trans_some _ _ _ _ h2]
        rfl
      | none =>
        have h2 : alookup (computeTrinucProbs refCount transCount).2 (t, t2) = none := by
          rw [computeTrinucProbs_trans_lookup refCount transCount t t2 hnd1 htmem, htc]
          rfl
        rcases backfillTables_trans_none_or_zero _ _ _ h2 with h | h
        · have h3 := backfillTables_trans_isSome (computeTrinucProbs refCount transCount).1
            (computeTrinucProbs refCount transCount).2 t t2 ht ht2
          rw [h] at h3
          cases h3
        · rw [h]
          simp
    rw [List.map_congr_left hper]
    have hcast : (trinucMut t).map (fun t2 =>
        (((alookup transCount (t, t2)).getD 0 : ℕ) : ℚ)
          / ((outgoingCount transCount t : ℕ) : ℚ))
        = (trinucMut t).map (fun t2 =>
          (((alookup transCount (t, t2)).getD 0 : ℕ) : ℚ)
            * (((outgoingCount transCount t : ℕ) : ℚ))⁻¹) := by
      apply List.map_congr_left
      intro t2 _
      rw [div_eq_mul_inv]
    rw [hcast, List.sum_map_mul_right]
    have h4 := sum_lookup_eq_outgoing t transCount hnd2 hshape
    have hsum : ((trinucMut t).map (fun t2 =>
        (((alookup transCount (t, t2)).getD 0 : ℕ) : ℚ))).sum
        = ((outgoingCount transCount t : ℕ) : ℚ) := by
      calc ((trinucMut t).map (fun t2 => (((alookup transCount (t, t2)).getD 0 : ℕ) : ℚ))).sum
          = ((((trinucMut t).map (fun t2 => (alookup transCount (t, t2)).getD 0)).map
              (fun n : ℕ => (n : ℚ)))).sum := by rw [List.map_map]; rfl
        _ = ((((trinucMut t).map (fun t2 =>
              (alookup transCount (t, t2)).getD 0)).sum : ℕ) : ℚ) :=
            (Nat.cast_list_sum _).symm
        _ = ((outgoingCount transCount t : ℕ) : ℚ) := by rw [h4]
    rw [hsum, mul_inv_cancel₀ hmcQ]
  · intro he hfst
    have h1 : alookup transCount e.1 = some e.2 := alookup_mem_nodup transCount hnd2 e he
    have he1 : e.1 = (t, e.1.2) := by
      rw [← hfst]
    rw [he1]
    have h2 : alookup (computeTrinucProbs refCount transCount).2 (t, e.1.2)
        = some ((e.2 : ℚ) / ((outgoingCount transCount t : ℕ) : ℚ)) := by
      rw [computeTrinucProbs_trans_lookup refCount transCount t e.1.2 hnd1 htmem, ← he1, h1]
      rfl
    exact backfillTables_trans_some _ _ _ _ h2

set_option maxRecDepth 100000 in
/-- C3 witness: one context `ACA` seen 4 times in the reference with 2 observed
transitions to `AGA`: its mutation probability is 2/4 ≠ 0 and the emitted
transition probabilities over the three center substitutions sum to 1. -/
theorem transition_probs_sum_to_one_witness :
    (alookup (backfillTables
        (computeTrinucProbs [("ACA".toList, 4)] [(("ACA".toList, "AGA".toList), 2)]).1
        (computeTrinucProbs [("ACA".toList, 4)] [(("ACA".toList, "AGA".toList), 2)]).2).1
        "ACA".toList = some ((2 : ℚ) / 4) ∧ ((2 : ℚ) / 4 ≠ 0))
    ∧ ((trinucMut "ACA".toList).map (fun t2 =>
        (alookup (backfillTables
          (computeTrinucProbs [("ACA".toList, 4)] [(("ACA".toList, "AGA".toList), 2)]).1
          (computeTrinucProbs [("ACA".toList, 4)] [(("ACA".toList, "AGA".toList), 2)]).2).2
          ("ACA".toList, t2)).getD 0)).sum = 1 := by
  have hmp : alookup (backfillTables
      (computeTrinucProbs [("ACA".toList, 4)] [(("ACA".toList, "AGA".toList), 2)]).1
      (computeTrinucProbs [("ACA".toList, 4)] [(("ACA".toList, "AGA".toList), 2)]).2).1
      "ACA".toList = some ((2 : ℚ) / 4) := by
    with_unfolding_all rfl
  have hp : (2 : ℚ) / 4 ≠ 0 := by norm_num
  exact ⟨⟨hmp, hp⟩, (transition_probs_sum_to_one [("ACA".toList, 4)]
    [(("ACA".toList, "AGA".toList), 2)] "ACA".toList ((2 : ℚ) / 4)
    (("ACA".toList, "AGA".toList), 2) (by decide) (by decide) (by decide) (by decide)
    hmp hp).1⟩
